import Mathlib

/-!
Verification of the DORA metrics aggregation engine
(`scripts/aggregate_dora_metrics.py`).

The Python pipeline is embedded shallowly:

* JSON metric records become `MetricRecord` structures whose fields are
  `Option`-valued; a Python `KeyError` on a missing dict key becomes an
  `Except.error` carrying the key name.
* pandas DataFrames of canonical rows become `List`s of row structures;
  `groupby` aggregation becomes explicit key deduplication plus `countP`
  or `filterMap` over the row list.
* pandas float columns are modelled as exact rationals.  The special
  values produced by division by zero are kept explicit in `PFloat`
  (`0 / 0` gives `nan`, `x / 0` with `x` nonzero gives `inf`; pandas
  raises no error on either).  `Series.round(2)` is modelled as exact
  round-half-to-even at two decimal places.
* calendar timestamps are parsed from their ISO-8601 strings; civil
  dates are converted to a day count (days since 1970-01-01, which was
  a Thursday) with the standard days-from-civil algorithm, and
  `Timestamp.dt.to_period` is modelled on those day counts
  (pandas frequency W defaults to W-SUN, i.e. weeks running Monday
  through Sunday, identified below by their Monday start day).
-/

namespace Dora

/-- Exact model of a pandas float cell: a rational value, or the
`NaN` / `inf` results pandas produces when dividing by zero. -/
inductive PFloat where
  | nan
  | inf
  | val (q : ℚ)
deriving DecidableEq, Repr

/-- pandas division of two (integer-count) columns: true division that
returns `NaN` for `0 / 0` and `inf` for `x / 0`, never raising.  The
quotient is written as `Rat.divInt` on the cross-multiplied numerators,
which equals `a / b` (see `pdDiv_val`). -/
def pdDiv (a b : ℚ) : PFloat :=
  if b = 0 then (if a = 0 then .nan else .inf)
  else .val (Rat.divInt (a.num * (b.den : ℤ)) (b.num * (a.den : ℤ)))

/-- Scalar multiplication on a pandas float cell (`* 100`).  The scalar
is a positive integer everywhere it is used, so `inf` keeps its sign;
the product is written on the numerator, which equals `q * c`
(see `pfMul_val`). -/
def pfMul (x : PFloat) (c : ℤ) : PFloat :=
  match x with
  | .nan => .nan
  | .inf => .inf
  | .val q => .val (Rat.divInt (q.num * c) (q.den : ℤ))

/-- Addition of two pandas float cells; `NaN` is absorbing.  (The
`inf + -inf` case cannot arise in this pipeline.) -/
def pfAdd (x y : PFloat) : PFloat :=
  match x, y with
  | .val a, .val b => .val (a + b)
  | .nan, _ => .nan
  | _, .nan => .nan
  | .inf, _ => .inf
  | _, .inf => .inf

/-- Round-half-to-even of the fraction `a / b` (`0 < b`), the rounding
used by `numpy.round` / `Series.round`: `n` is the floor of the
fraction and `r / b` its fractional part, and the comparison of
`r / b` with one half is taken on `2 r` versus `b`. -/
def rheAt (a b : ℤ) : ℤ :=
  if 2 * (a % b) < b then a / b
  else if b < 2 * (a % b) then a / b + 1
  else if (a / b) % 2 = 0 then a / b else a / b + 1

/-- Value-level description of round-half-to-even, in terms of the
floor and fractional part of the rational being rounded (used to
reason about `rheAt`). -/
def rheVal (q : ℚ) : ℤ :=
  if Int.fract q < 1/2 then ⌊q⌋
  else if 1/2 < Int.fract q then ⌊q⌋ + 1
  else if ⌊q⌋ % 2 = 0 then ⌊q⌋ else ⌊q⌋ + 1

/-- Model of Series.round(2): round-half-to-even at two decimal places.
`q * 100 = (100 q.num) / q.den` is rounded to the nearest integer and
divided back by 100. -/
def round2 (q : ℚ) : ℚ := mkRat (rheAt (100 * q.num) (q.den : ℤ)) 100

/-- Rounding at two decimals lifted to a pandas float cell (`NaN` and
`inf` are unchanged by rounding). -/
def round2PF (x : PFloat) : PFloat :=
  match x with
  | .nan => .nan
  | .inf => .inf
  | .val q => .val (round2 q)

/-! ## Civil calendar -/

/-- Is `y` (a year CE) a leap year of the Gregorian calendar? -/
def isLeap (y : ℕ) : Bool :=
  (y % 4 = 0 && y % 100 != 0) || y % 400 = 0

/-- Number of days of month `m` in year `y`. -/
def daysInMonth (y m : ℕ) : ℕ :=
  if m = 2 then (if isLeap y then 29 else 28)
  else if m = 4 ∨ m = 6 ∨ m = 9 ∨ m = 11 then 30
  else 31

/-- Day count of the civil date `y-m-d` (days since 1970-01-01), by the
standard days-from-civil algorithm. -/
def daysFromCivil (y : ℤ) (m d : ℕ) : ℤ :=
  let y' : ℤ := if m ≤ 2 then y - 1 else y
  let era : ℤ := y' / 400
  let yoe : ℕ := (y' - era * 400).toNat
  let mp : ℕ := if 2 < m then m - 3 else m + 9
  let doy : ℕ := (153 * mp + 2) / 5 + d - 1
  let doe : ℕ := yoe * 365 + yoe / 4 - yoe / 100 + doy
  era * 146097 + (doe : ℤ) - 719468

/-- Civil date `(year, month, day)` of a day count, by the standard
civil-from-days algorithm (inverse of `daysFromCivil` on valid dates). -/
def civilFromDays (n : ℤ) : ℤ × ℕ × ℕ :=
  let z : ℤ := n + 719468
  let era : ℤ := z / 146097
  let doe : ℕ := (z - era * 146097).toNat
  let yoe : ℕ := (doe - doe / 1460 + doe / 36524 - doe / 146096) / 365
  let y : ℤ := (yoe : ℤ) + era * 400
  let doy : ℕ := doe - (365 * yoe + yoe / 4 - yoe / 100)
  let mp : ℕ := (5 * doy + 2) / 153
  let d : ℕ := doy - (153 * mp + 2) / 5 + 1
  let m : ℕ := if mp < 10 then mp + 3 else mp - 9
  (if m ≤ 2 then y + 1 else y, m, d)

/-- Weekday of a day count, Monday = 0 (day 0 = 1970-01-01 was a
Thursday, weekday 3). -/
def dayOfWeek (n : ℤ) : ℤ := (n + 3) % 7

/-- Model of Timestamp.dt.to_period with frequency W (pandas default anchor
W-SUN: weeks run Monday through Sunday).  The weekly period containing
day `n` is identified by its Monday start day. -/
def toPeriodW (n : ℤ) : ℤ := n - (n + 3) % 7

/-! ## Timestamp parsing

`pd.to_datetime` and `dateutil.parser.parse` accept the ISO-8601 forms
the pipeline emits (`YYYY-MM-DD`, optionally followed by
`THH:MM:SS` and a zone marker).  The embedding parses exactly those
forms; fractional seconds and offsets beyond the date/time core are
out of scope of the claims. -/

/-- Decimal value of an ASCII digit character. -/
def digitVal (c : Char) : Option ℕ :=
  if 48 ≤ c.toNat ∧ c.toNat ≤ 57 then some (c.toNat - 48) else none

/-- Parse the date portion (first ten characters, `YYYY-MM-DD`) of an
ISO-8601 timestamp into its day count; `none` models a parse error
(`pd.to_datetime` rejects malformed dates). -/
def parseDateChars : List Char → Option ℤ
  | y1 :: y2 :: y3 :: y4 :: '-' :: m1 :: m2 :: '-' :: d1 :: d2 :: _ => do
    let a ← digitVal y1
    let b ← digitVal y2
    let c ← digitVal y3
    let e ← digitVal y4
    let f ← digitVal m1
    let g ← digitVal m2
    let h ← digitVal d1
    let i ← digitVal d2
    let y := 1000 * a + 100 * b + 10 * c + e
    let m := 10 * f + g
    let d := 10 * h + i
    if 1 ≤ m ∧ m ≤ 12 ∧ 1 ≤ d ∧ d ≤ daysInMonth y m then
      some (daysFromCivil (y : ℤ) m d)
    else none
  | _ => none

/-- Parse the date portion of an ISO-8601 timestamp string. -/
def parseDate (s : String) : Option ℤ := parseDateChars s.data

/-- Parse the `HH:MM:SS` part following the date (an empty remainder
means midnight); the leading `T` or space separator is consumed and a
trailing zone marker is ignored. -/
def parseTimeChars : List Char → Option ℤ
  | [] => some 0
  | sep :: h1 :: h2 :: ':' :: m1 :: m2 :: ':' :: s1 :: s2 :: _ => do
    if sep = 'T' ∨ sep = ' ' then
      let a ← digitVal h1
      let b ← digitVal h2
      let c ← digitVal m1
      let e ← digitVal m2
      let f ← digitVal s1
      let g ← digitVal s2
      let h := 10 * a + b
      let mi := 10 * c + e
      let se := 10 * f + g
      if h < 24 ∧ mi < 60 ∧ se < 60 then
        some ((h : ℤ) * 3600 + (mi : ℤ) * 60 + (se : ℤ))
      else none
    else none
  | _ => none

/-- Parse a full ISO-8601 timestamp to epoch seconds
(`dateutil.parser.parse` followed by the datetime subtraction uses the
instant, not just the date). -/
def parseDT (s : String) : Option ℤ := do
  let d ← parseDateChars s.data
  let t ← parseTimeChars (s.data.drop 10)
  some (d * 86400 + t)

/-! ## Data model

One loaded JSON record.  Every field a metric function reads through
`dict[key]` is `Option`-valued here; `none` models an absent key and
indexing it is a `KeyError`. -/

/-- Payload under the `deployment_frequency` key. -/
structure DeployPayload where
  deployment_id : Option String
  branch : Option String
  commit_sha : Option String
deriving DecidableEq, Repr

/-- Payload under the `lead_time_for_changes` key. -/
structure LeadPayload where
  commit_timestamp : Option String
  deploy_timestamp : Option String
  commit_sha : Option String
deriving DecidableEq, Repr

/-- Payload under the `change_failure_rate` key. -/
structure CfrPayload where
  status : Option String
  workflow_run_id : Option String
  commit_sha : Option String
deriving DecidableEq, Repr

/-- One record as loaded by `load_metrics`. -/
structure MetricRecord where
  timestamp : Option String
  service : Option String
  deployment_frequency : Option DeployPayload
  lead_time_for_changes : Option LeadPayload
  change_failure_rate : Option CfrPayload
deriving DecidableEq, Repr

/-- A record carrying none of the three metric payload keys: loaded
successfully but contributing to no metric table. -/
def inert (m : MetricRecord) : Prop :=
  m.deployment_frequency = none ∧ m.lead_time_for_changes = none ∧
    m.change_failure_rate = none

/-! ## Extraction (the per-metric for-loops) -/

/-- Entry appended by `calculate_deployment_frequency` for one record
with a `deployment_frequency` payload. -/
structure DeployEntry where
  timestamp : String
  service : String
  deployment_id : String
  branch : String
  commit_sha : String
deriving DecidableEq, Repr

/-- The dict literal built inside the deployment loop, with the stated
defaults for the optional fields. -/
def deployEntryOf (ts sv : String) (p : DeployPayload) (did : String) :
    DeployEntry :=
  ⟨ts, sv, did, p.branch.getD "unknown", p.commit_sha.getD ""⟩

/-- The deployment loop: records without the payload key are passed
over; a record with the key but a missing required field raises, which
aborts the whole loop (`Except.error`). -/
def extractDeployments : List MetricRecord → Except String (List DeployEntry)
  | [] => .ok []
  | m :: ms =>
    match m.deployment_frequency with
    | none => extractDeployments ms
    | some p =>
      match m.timestamp with
      | none => .error "KeyError: timestamp"
      | some ts =>
        match m.service with
        | none => .error "KeyError: service"
        | some sv =>
          match p.deployment_id with
          | none => .error "KeyError: deployment_id"
          | some did =>
            match extractDeployments ms with
            | .error e => .error e
            | .ok rest => .ok (deployEntryOf ts sv p did :: rest)

/-- Entry appended by `calculate_lead_time`; the two parsed timestamps
are kept (they become DataFrame columns) together with the derived
signed durations. -/
structure LeadEntry where
  timestamp : String
  service : String
  commit_sha : String
  commit_ts : ℤ
  deploy_ts : ℤ
  lead_time_seconds : ℚ
  lead_time_minutes : ℚ
  lead_time_hours : ℚ
deriving DecidableEq, Repr

/-- The dict literal built inside the lead-time loop.  The derived
durations divide the signed second count by 60 and 3600 (written as
`mkRat`, which equals the division; see `leadEntryOf_hours`). -/
def leadEntryOf (ts sv : String) (p : LeadPayload) (tc td : ℤ) : LeadEntry :=
  ⟨ts, sv, p.commit_sha.getD "", tc, td,
    ((td - tc : ℤ) : ℚ), mkRat (td - tc) 60, mkRat (td - tc) 3600⟩

/-- Model of dateutil parsing: raises on an unparseable string. -/
def parseOrErr (s : String) : Except String ℤ :=
  match parseDT s with
  | some t => .ok t
  | none => .error ("ParserError: " ++ s)

/-- The lead-time loop: both timestamps are required and parsed
eagerly; any failure aborts the loop. -/
def extractLeadTimes : List MetricRecord → Except String (List LeadEntry)
  | [] => .ok []
  | m :: ms =>
    match m.lead_time_for_changes with
    | none => extractLeadTimes ms
    | some p =>
      match p.commit_timestamp with
      | none => .error "KeyError: commit_timestamp"
      | some cs =>
        match parseOrErr cs with
        | .error e => .error e
        | .ok tc =>
          match p.deploy_timestamp with
          | none => .error "KeyError: deploy_timestamp"
          | some ds =>
            match parseOrErr ds with
            | .error e => .error e
            | .ok td =>
              match m.timestamp with
              | none => .error "KeyError: timestamp"
              | some ts =>
                match m.service with
                | none => .error "KeyError: service"
                | some sv =>
                  match extractLeadTimes ms with
                  | .error e => .error e
                  | .ok rest => .ok (leadEntryOf ts sv p tc td :: rest)

/-- Entry appended by `calculate_change_failure_rate`. -/
structure CfrEntry where
  timestamp : String
  service : String
  status : String
  workflow_run_id : String
  commit_sha : String
deriving DecidableEq, Repr

/-- The dict literal built inside the change-outcome loop. -/
def cfrEntryOf (ts sv : String) (p : CfrPayload) (st : String) : CfrEntry :=
  ⟨ts, sv, st, p.workflow_run_id.getD "", p.commit_sha.getD ""⟩

/-- The change-outcome loop: `status` is required. -/
def extractChanges : List MetricRecord → Except String (List CfrEntry)
  | [] => .ok []
  | m :: ms =>
    match m.change_failure_rate with
    | none => extractChanges ms
    | some p =>
      match m.timestamp with
      | none => .error "KeyError: timestamp"
      | some ts =>
        match m.service with
        | none => .error "KeyError: service"
        | some sv =>
          match p.status with
          | none => .error "KeyError: status"
          | some st =>
            match extractChanges ms with
            | .error e => .error e
            | .ok rest => .ok (cfrEntryOf ts sv p st :: rest)

/-! ## Bucket labels (`astype(str)` on period columns) -/

/-- Zero-padded decimal rendering of a natural number. -/
def padNat (n w : ℕ) : String :=
  let s := toString n
  (String.mk (List.replicate (w - s.length) (Char.ofNat 48))) ++ s

/-- Rendering of a civil date triple as YYYY-MM-DD. -/
def dateLabel (c : ℤ × ℕ × ℕ) : String :=
  padNat c.1.toNat 4 ++ "-" ++ padNat c.2.1 2 ++ "-" ++ padNat c.2.2 2

/-- String label of a weekly period: start and end day of the
Monday-through-Sunday span. -/
def weekLabel (ws : ℤ) : String :=
  dateLabel (civilFromDays ws) ++ "/" ++ dateLabel (civilFromDays (ws + 6))

/-- The monthly period of a day count: its civil (year, month). -/
def toPeriodM (n : ℤ) : ℤ × ℕ :=
  ((civilFromDays n).1, (civilFromDays n).2.1)

/-- String label of a monthly period: YYYY-MM. -/
def monthLabel (p : ℤ × ℕ) : String :=
  padNat p.1.toNat 4 ++ "-" ++ padNat p.2 2

/-! ## Deployment frequency aggregation -/

/-- Canonical deployment row after `pd.to_datetime` / `.dt.date`:
the entry fields plus the civil day (as a day count). -/
structure DeployRow where
  timestamp : String
  date : ℤ
  service : String
  deployment_id : String
  branch : String
  commit_sha : String
deriving DecidableEq, Repr

/-- The to_datetime pass over the deployment entries: every
timestamp must parse, otherwise the call raises. -/
def parseDeployRows (es : List DeployEntry) : Except String (List DeployRow) :=
  match es with
  | [] => .ok []
  | e :: rest =>
    match parseDate e.timestamp with
    | none => .error ("to_datetime: " ++ e.timestamp)
    | some d =>
      match parseDeployRows rest with
      | .error err => .error err
      | .ok rs =>
        .ok (⟨e.timestamp, d, e.service, e.deployment_id, e.branch,
              e.commit_sha⟩ :: rs)

/-- Row of the daily deployment-frequency aggregate. -/
structure DailyFreqRow where
  date : ℤ
  service : String
  deployment_count : ℕ
deriving DecidableEq, Repr

/-- Weekly deployment-frequency aggregate before `astype(str)`:
keyed by the weekly period. -/
structure WeeklyPeriodRow where
  week : ℤ
  service : String
  deployment_count : ℕ
deriving DecidableEq, Repr

/-- Row of the weekly aggregate as returned (week as string label). -/
structure WeeklyFreqRow where
  week : String
  service : String
  deployment_count : ℕ
deriving DecidableEq, Repr

/-- Row of the monthly aggregate as returned (month as string label). -/
structure MonthlyFreqRow where
  month : String
  service : String
  deployment_count : ℕ
deriving DecidableEq, Repr

/-- The size aggregation of groupby [date, service], at one key. -/
def dailyCountOn (rows : List DeployRow) (d : ℤ) (s : String) : ℕ :=
  rows.countP fun r => decide (r.date = d ∧ r.service = s)

/-- The size aggregation of groupby [week, service], at one key. -/
def weeklyCountOn (rows : List DeployRow) (w : ℤ) (s : String) : ℕ :=
  rows.countP fun r => decide (toPeriodW r.date = w ∧ r.service = s)

/-- The size aggregation of groupby [month, service], at one key. -/
def monthlyCountOn (rows : List DeployRow) (p : ℤ × ℕ) (s : String) : ℕ :=
  rows.countP fun r => decide (toPeriodM r.date = p ∧ r.service = s)

/-- The distinct (date, service) group keys of the table. -/
def freqDayKeys (rows : List DeployRow) : List (ℤ × String) :=
  (rows.map fun r => (r.date, r.service)).dedup

/-- The distinct (week, service) group keys of the table. -/
def freqWeekKeys (rows : List DeployRow) : List (ℤ × String) :=
  (rows.map fun r => (toPeriodW r.date, r.service)).dedup

/-- The distinct (month, service) group keys of the table. -/
def freqMonthKeys (rows : List DeployRow) : List ((ℤ × ℕ) × String) :=
  (rows.map fun r => (toPeriodM r.date, r.service)).dedup

/-- Daily deployment frequency: one row per (date, service) group. -/
def dailyFreqOf (rows : List DeployRow) : List DailyFreqRow :=
  (freqDayKeys rows).map fun k => ⟨k.1, k.2, dailyCountOn rows k.1 k.2⟩

/-- Weekly deployment frequency, keyed by weekly period. -/
def weeklyPeriodsOf (rows : List DeployRow) : List WeeklyPeriodRow :=
  (freqWeekKeys rows).map fun k => ⟨k.1, k.2, weeklyCountOn rows k.1 k.2⟩

/-- Weekly deployment frequency as returned: `astype(str)` on the
period column. -/
def weeklyStrOf (rows : List DeployRow) : List WeeklyFreqRow :=
  (weeklyPeriodsOf rows).map fun pr =>
    ⟨weekLabel pr.week, pr.service, pr.deployment_count⟩

/-- Monthly deployment frequency as returned. -/
def monthlyStrOf (rows : List DeployRow) : List MonthlyFreqRow :=
  (freqMonthKeys rows).map fun k =>
    ⟨monthLabel k.1, k.2, monthlyCountOn rows k.1 k.2⟩

/-- Return value of `calculate_deployment_frequency`: the bare empty
DataFrame on an empty table, else the dict of the three aggregates and
the canonical table. -/
inductive FreqResult where
  | empty
  | tables (daily : List DailyFreqRow) (weekly : List WeeklyFreqRow)
      (monthly : List MonthlyFreqRow) (raw : List DeployRow)
deriving DecidableEq, Repr

/-- Model of calculate_deployment_frequency. -/
def calculate_deployment_frequency (ms : List MetricRecord) :
    Except String FreqResult :=
  match extractDeployments ms with
  | .error e => .error e
  | .ok es =>
    if es.isEmpty then .ok .empty
    else
      match parseDeployRows es with
      | .error e => .error e
      | .ok rows =>
        .ok (.tables (dailyFreqOf rows) (weeklyStrOf rows)
          (monthlyStrOf rows) rows)

/-! ## Lead time aggregation -/

/-- Canonical lead-time row after the `date` column is derived. -/
structure LeadRow where
  timestamp : String
  date : ℤ
  service : String
  commit_sha : String
  commit_ts : ℤ
  deploy_ts : ℤ
  lead_time_seconds : ℚ
  lead_time_minutes : ℚ
  lead_time_hours : ℚ
deriving DecidableEq, Repr

/-- The to_datetime and date-extraction pass over the lead-time entries. -/
def parseLeadRows (es : List LeadEntry) : Except String (List LeadRow) :=
  match es with
  | [] => .ok []
  | e :: rest =>
    match parseDate e.timestamp with
    | none => .error ("to_datetime: " ++ e.timestamp)
    | some d =>
      match parseLeadRows rest with
      | .error err => .error err
      | .ok rs =>
        .ok (⟨e.timestamp, d, e.service, e.commit_sha, e.commit_ts,
              e.deploy_ts, e.lead_time_seconds, e.lead_time_minutes,
              e.lead_time_hours⟩ :: rs)

/-- Mean of a list of rationals (`sum / len`; buckets are nonempty). -/
def listMean (l : List ℚ) : ℚ := l.sum / (l.length : ℚ)

/-- Least element of a nonempty list (0 on the empty list, unused). -/
def listMin : List ℚ → ℚ
  | [] => 0
  | x :: xs => xs.foldl min x

/-- Greatest element of a nonempty list. -/
def listMax : List ℚ → ℚ
  | [] => 0
  | x :: xs => xs.foldl max x

/-- Insert into a sorted list. -/
def insertSorted (x : ℚ) : List ℚ → List ℚ
  | [] => [x]
  | y :: ys => if x ≤ y then x :: y :: ys else y :: insertSorted x ys

/-- Insertion sort. -/
def sortQ (l : List ℚ) : List ℚ := l.foldr insertSorted []

/-- pandas median: middle element of the sorted values, or the average
of the two middle elements when the count is even. -/
def listMedian (l : List ℚ) : ℚ :=
  let s := sortQ l
  if l.length % 2 = 1 then s.getD (l.length / 2) 0
  else (s.getD (l.length / 2 - 1) 0 + s.getD (l.length / 2) 0) / 2

/-- Row of the daily lead-time aggregate (columns as renamed in the
source). -/
structure LeadDailyRow where
  date : ℤ
  service : String
  avg_lead_time_hours : ℚ
  median_lead_time_hours : ℚ
  min_lead_time_hours : ℚ
  max_lead_time_hours : ℚ
deriving DecidableEq, Repr

/-- The distinct (date, service) keys of the lead-time table. -/
def leadKeys (rows : List LeadRow) : List (ℤ × String) :=
  (rows.map fun r => (r.date, r.service)).dedup

/-- The `lead_time_hours` values of one (date, service) bucket, in
table order, unfiltered. -/
def bucketVals (rows : List LeadRow) (d : ℤ) (s : String) : List ℚ :=
  rows.filterMap fun r =>
    if r.date = d ∧ r.service = s then some r.lead_time_hours else none

/-- The mean, median, min and max aggregation per (date, service). -/
def leadDailyOf (rows : List LeadRow) : List LeadDailyRow :=
  (leadKeys rows).map fun k =>
    ⟨k.1, k.2, listMean (bucketVals rows k.1 k.2),
      listMedian (bucketVals rows k.1 k.2),
      listMin (bucketVals rows k.1 k.2),
      listMax (bucketVals rows k.1 k.2)⟩

/-- Return value of `calculate_lead_time`. -/
inductive LeadResult where
  | empty
  | tables (daily_average : List LeadDailyRow) (raw : List LeadRow)
deriving DecidableEq, Repr

/-- Model of calculate_lead_time. -/
def calculate_lead_time (ms : List MetricRecord) :
    Except String LeadResult :=
  match extractLeadTimes ms with
  | .error e => .error e
  | .ok es =>
    if es.isEmpty then .ok .empty
    else
      match parseLeadRows es with
      | .error e => .error e
      | .ok rows => .ok (.tables (leadDailyOf rows) rows)

/-! ## Change failure rate aggregation -/

/-- Canonical change-outcome row with the derived `date` column. -/
structure CfrRow where
  timestamp : String
  date : ℤ
  service : String
  status : String
  workflow_run_id : String
  commit_sha : String
deriving DecidableEq, Repr

/-- The to_datetime and date-extraction pass over the change entries. -/
def parseCfrRows (es : List CfrEntry) : Except String (List CfrRow) :=
  match es with
  | [] => .ok []
  | e :: rest =>
    match parseDate e.timestamp with
    | none => .error ("to_datetime: " ++ e.timestamp)
    | some d =>
      match parseCfrRows rest with
      | .error err => .error err
      | .ok rs =>
        .ok (⟨e.timestamp, d, e.service, e.status, e.workflow_run_id,
              e.commit_sha⟩ :: rs)

/-- Count of rows of one (date, service) group with exactly the given
status (one cell of the unstacked status table, `fill_value=0`). -/
def statusCountDay (rows : List CfrRow) (d : ℤ) (s st : String) : ℕ :=
  rows.countP fun r => decide (r.date = d ∧ r.service = s ∧ r.status = st)

/-- The same cell for the weekly grouping. -/
def statusCountWeek (rows : List CfrRow) (w : ℤ) (s st : String) : ℕ :=
  rows.countP fun r =>
    decide (toPeriodW r.date = w ∧ r.service = s ∧ r.status = st)

/-- Row of the daily change-failure aggregate.  The unstack also emits
one column per further status value; no claim mentions those columns,
so only the named ones are carried. -/
structure CfrDailyRow where
  date : ℤ
  service : String
  success : ℕ
  failure : ℕ
  total_changes : ℕ
  failure_rate : PFloat
  success_rate : PFloat
deriving DecidableEq, Repr

/-- Row of the weekly change-failure aggregate before `astype(str)`.
The weekly view has no `success_rate` column (source asymmetry). -/
structure CfrWeeklyPeriodRow where
  week : ℤ
  service : String
  success : ℕ
  failure : ℕ
  total_changes : ℕ
  failure_rate : PFloat
deriving DecidableEq, Repr

/-- Row of the weekly change-failure aggregate as returned. -/
structure CfrWeeklyRow where
  week : String
  service : String
  success : ℕ
  failure : ℕ
  total_changes : ℕ
  failure_rate : PFloat
deriving DecidableEq, Repr

/-- The distinct (date, service) index of the unstacked daily table. -/
def cfrDayKeys (rows : List CfrRow) : List (ℤ × String) :=
  (rows.map fun r => (r.date, r.service)).dedup

/-- The distinct (week, service) index of the unstacked weekly table. -/
def cfrWeekKeys (rows : List CfrRow) : List (ℤ × String) :=
  (rows.map fun r => (toPeriodW r.date, r.service)).dedup

/-- One daily row: status counts, their sum, and the two rates
(`failure / total * 100`, rounded; `0 / 0` is `NaN`). -/
def cfrDailyRowOf (rows : List CfrRow) (k : ℤ × String) : CfrDailyRow :=
  let su := statusCountDay rows k.1 k.2 "success"
  let fa := statusCountDay rows k.1 k.2 "failure"
  let tot := su + fa
  ⟨k.1, k.2, su, fa, tot,
    round2PF (pfMul (pdDiv (fa : ℚ) (tot : ℚ)) 100),
    round2PF (pfMul (pdDiv (su : ℚ) (tot : ℚ)) 100)⟩

/-- The daily change-failure aggregate. -/
def cfrDailyOf (rows : List CfrRow) : List CfrDailyRow :=
  (cfrDayKeys rows).map (cfrDailyRowOf rows)

/-- One weekly row (no success rate). -/
def cfrWeeklyRowOf (rows : List CfrRow) (k : ℤ × String) :
    CfrWeeklyPeriodRow :=
  let su := statusCountWeek rows k.1 k.2 "success"
  let fa := statusCountWeek rows k.1 k.2 "failure"
  let tot := su + fa
  ⟨k.1, k.2, su, fa, tot,
    round2PF (pfMul (pdDiv (fa : ℚ) (tot : ℚ)) 100)⟩

/-- The weekly change-failure aggregate, keyed by weekly period. -/
def cfrWeeklyPeriodsOf (rows : List CfrRow) : List CfrWeeklyPeriodRow :=
  (cfrWeekKeys rows).map (cfrWeeklyRowOf rows)

/-- The weekly aggregate as returned (`astype(str)` on the week). -/
def cfrWeeklyStrOf (rows : List CfrRow) : List CfrWeeklyRow :=
  (cfrWeeklyPeriodsOf rows).map fun pr =>
    ⟨weekLabel pr.week, pr.service, pr.success, pr.failure,
      pr.total_changes, pr.failure_rate⟩

/-- Return value of `calculate_change_failure_rate`. -/
inductive CfrResult where
  | empty
  | tables (daily : List CfrDailyRow) (weekly : List CfrWeeklyRow)
      (raw : List CfrRow)
deriving DecidableEq, Repr

/-- Model of calculate_change_failure_rate. -/
def calculate_change_failure_rate (ms : List MetricRecord) :
    Except String CfrResult :=
  match extractChanges ms with
  | .error e => .error e
  | .ok es =>
    if es.isEmpty then .ok .empty
    else
      match parseCfrRows es with
      | .error e => .error e
      | .ok rows => .ok (.tables (cfrDailyOf rows) (cfrWeeklyStrOf rows) rows)

/-! ## Export (`generate_powerbi_export`)

The exporter guards each metric with
checking the truthiness of the result and of its daily table.  When the metric had zero
records the result is a bare empty DataFrame, and in pandas the
truthiness of any DataFrame raises
`ValueError: The truth value of a DataFrame is ambiguous`
(`NDFrame.__bool__` raises unconditionally); a nonempty dict is simply
truthy.  The file names are modelled without the wall-clock date
stamp. -/

/-- The pandas message raised by `bool(DataFrame)`. -/
def dfTruthMsg : String :=
  "ValueError: The truth value of a DataFrame is ambiguous."

/-- The deployment-frequency export guard (truthiness of the result and
emptiness of its daily table) and the three to_csv calls under it. -/
def freqFiles (r : FreqResult) : Except String (List String) :=
  match r with
  | .empty => .error dfTruthMsg
  | .tables daily _ _ _ =>
    .ok (if daily.isEmpty then []
      else ["deployment_frequency_daily", "deployment_frequency_weekly",
            "deployment_frequency_monthly"])

/-- The lead-time export guard and its two to_csv calls. -/
def leadFiles (r : LeadResult) : Except String (List String) :=
  match r with
  | .empty => .error dfTruthMsg
  | .tables daily_average _ =>
    .ok (if daily_average.isEmpty then []
      else ["lead_time_daily", "lead_time_raw"])

/-- The change-failure-rate export guard and its two to_csv calls. -/
def cfrFiles (r : CfrResult) : Except String (List String) :=
  match r with
  | .empty => .error dfTruthMsg
  | .tables daily _ _ =>
    .ok (if daily.isEmpty then []
      else ["change_failure_rate_daily", "change_failure_rate_weekly"])

/-- The run summary (`generated_at`, a wall-clock value, is not
modelled). -/
structure Summary where
  total_metrics : ℕ
  date_range_start : String
  date_range_end : String
deriving DecidableEq, Repr

/-- Python string `<`: lexicographic comparison of the code-point
sequences. -/
def strLtChars : List Char → List Char → Bool
  | [], [] => false
  | [], _ :: _ => true
  | _ :: _, [] => false
  | a :: as, b :: bs =>
    if a.toNat < b.toNat then true
    else if b.toNat < a.toNat then false
    else strLtChars as bs

/-- Python string `<` on the two strings. -/
def pyLt (a b : String) : Bool := strLtChars a.data b.data

/-- Python `min` over strings: keeps the current value unless the next
one is strictly smaller. -/
def minStr (a b : String) : String := if pyLt b a then b else a

/-- Python `max` over strings. -/
def maxStr (a b : String) : String := if pyLt a b then b else a

/-- The timestamp list comprehension of the summary: every loaded record is
indexed, payload or not; a record without the key raises. -/
def rawTimestamps (ms : List MetricRecord) : Except String (List String) :=
  match ms with
  | [] => .ok []
  | m :: rest =>
    match m.timestamp with
    | none => .error "KeyError: timestamp"
    | some t =>
      match rawTimestamps rest with
      | .error e => .error e
      | .ok ts => .ok (t :: ts)

/-- The summary record: record count and the min/max of the raw
timestamp strings. -/
def summaryOf (ms : List MetricRecord) : Except String Summary :=
  match rawTimestamps ms with
  | .error e => .error e
  | .ok [] => .error "ValueError: min() arg is an empty sequence"
  | .ok (t :: ts) => .ok ⟨ms.length, ts.foldl minStr t, ts.foldl maxStr t⟩

/-- Everything the run writes: the export files and the summary. -/
structure RunOutput where
  files : List String
  summary : Summary
deriving DecidableEq, Repr

/-- Model of generate_powerbi_export: `none` is the early return on an empty
ingested set; exports run metric by metric, then the summary is
written. -/
def generate_powerbi_export (ms : List MetricRecord) :
    Except String (Option RunOutput) :=
  if ms.isEmpty then .ok none
  else
    match calculate_deployment_frequency ms with
    | .error e => .error e
    | .ok df =>
      match calculate_lead_time ms with
      | .error e => .error e
      | .ok lt =>
        match calculate_change_failure_rate ms with
        | .error e => .error e
        | .ok cfr =>
          match freqFiles df with
          | .error e => .error e
          | .ok f1 =>
            match leadFiles lt with
            | .error e => .error e
            | .ok f2 =>
              match cfrFiles cfr with
              | .error e => .error e
              | .ok f3 =>
                match summaryOf ms with
                | .error e => .error e
                | .ok s => .ok (some ⟨f1 ++ f2 ++ f3, s⟩)

/-! ## Concrete inputs used by the end-to-end checks -/

/-- A deployment event for service A on 2024-01-01. -/
def depRecA : MetricRecord :=
  ⟨some "2024-01-01T10:00:00Z", some "A",
    some ⟨some "d1", none, none⟩, none, none⟩

/-- A success change outcome for service A on 2024-01-01. -/
def sucRecA : MetricRecord :=
  ⟨some "2024-01-01T11:00:00Z", some "A", none, none,
    some ⟨some "success", none, none⟩⟩

/-- A failure change outcome for service A on 2024-01-01. -/
def failRecA : MetricRecord :=
  ⟨some "2024-01-01T12:00:00Z", some "A", none, none,
    some ⟨some "failure", none, none⟩⟩

/-- The three-event scenario of the end-to-end check. -/
def scenarioMetrics : List MetricRecord := [depRecA, sucRecA, failRecA]

/-- The day count of 2024-01-01. -/
def day20240101 : ℤ := daysFromCivil 2024 1 1

/-- Daily deployment table of a deployment-frequency result
(empty list when the call failed or yielded the empty frame). -/
def freqDailyOf : Except String FreqResult → List DailyFreqRow
  | .ok (.tables d _ _ _) => d
  | _ => []

/-- Daily table of a change-failure result. -/
def cfrDailyTableOf : Except String CfrResult → List CfrDailyRow
  | .ok (.tables d _ _) => d
  | _ => []

/-- A well-formed lead-time event for service A whose deploy timestamp
precedes its commit timestamp by one day. -/
def negLeadRec : MetricRecord :=
  ⟨some "2024-01-03T05:00:00Z", some "A", none,
    some ⟨some "2024-01-02T00:00:00Z", some "2024-01-01T00:00:00Z", none⟩,
    none⟩

/-- A deployment record whose payload lacks the required
`deployment_id` field. -/
def badDeployRec : MetricRecord :=
  ⟨some "2024-01-05T09:00:00Z", some "B",
    some ⟨none, some "main", none⟩, none, none⟩

/-- Batch holding one good lead-time record and one deployment record
with a missing required field. -/
def missingFieldMetrics : List MetricRecord := [negLeadRec, badDeployRec]

/-- Batch whose only record is a lead-time event: the ingested set is
nonempty but the deployment metric has zero classified records. -/
def leadOnlyMetrics : List MetricRecord := [negLeadRec]

/-- A change-outcome record whose status is neither `success` nor
`failure`. -/
def otherStatusRec : MetricRecord :=
  ⟨some "2024-01-01T10:00:00Z", some "A", none, none,
    some ⟨some "deployed", none, none⟩⟩

/-- Batch with a single other-status change outcome (service A). -/
def otherStatusMetrics : List MetricRecord := [otherStatusRec]

/-- A second other-status change outcome, for service B. -/
def rollbackRec : MetricRecord :=
  ⟨some "2024-02-06T10:00:00Z", some "B", none, none,
    some ⟨some "rollback", none, none⟩⟩

/-- Batch with a single rollback change outcome (service B). -/
def rollbackMetrics : List MetricRecord := [rollbackRec]

/-- A record carrying two metric payload keys at once. -/
def dualPayloadRec : MetricRecord :=
  ⟨some "2024-01-04T08:00:00Z", some "C",
    some ⟨some "d9", none, none⟩,
    some ⟨some "2024-01-04T06:00:00Z", some "2024-01-04T07:00:00Z", none⟩,
    none⟩

/-- Batch holding the dual-payload record. -/
def dualPayloadMetrics : List MetricRecord := [dualPayloadRec]

/-- An inert record (no payload keys) that also lacks `timestamp`. -/
def inertNoTsRec : MetricRecord := ⟨none, some "A", none, none, none⟩

/-- Batch with one full deployment record and one inert record without
a timestamp. -/
def noTsMetrics : List MetricRecord := [depRecA, inertNoTsRec]

/-- Two deployments for service A in the ISO week of 2024-01-01
(Monday and Wednesday) and one the following Monday. -/
def weekSumMetrics : List MetricRecord :=
  [depRecA,
    ⟨some "2024-01-03T09:00:00Z", some "A",
      some ⟨some "d2", none, none⟩, none, none⟩,
    ⟨some "2024-01-08T09:00:00Z", some "A",
      some ⟨some "d3", none, none⟩, none, none⟩]

/-- Keep only the record parts the deployment extractor reads. -/
def clearNonDeploy (m : MetricRecord) : MetricRecord :=
  { m with lead_time_for_changes := none, change_failure_rate := none }

/-- Keep only the record parts the lead-time extractor reads. -/
def clearNonLead (m : MetricRecord) : MetricRecord :=
  { m with deployment_frequency := none, change_failure_rate := none }

/-- Keep only the record parts the change-outcome extractor reads. -/
def clearNonCfr (m : MetricRecord) : MetricRecord :=
  { m with deployment_frequency := none, lead_time_for_changes := none }

/-- Modelled from the spec, for comparison with the bucketing the code
performs: the ISO week identifier (ISO year, ISO week number) of a
day.  Weeks start on Monday; the ISO year of a date is the calendar
year of the Thursday of its week, and the week number counts that
position of that Thursday among the Thursdays of the ISO year. -/
def specIsoWeek (n : ℤ) : ℤ × ℤ :=
  let th := toPeriodW n + 3
  let y := (civilFromDays th).1
  (y, (th - daysFromCivil y 1 1) / 7 + 1)

/-- The weekly grouping key of a deployment row
(the weekly groupby key). -/
def weeklyKeyOf (r : DeployRow) : ℤ × String := (toPeriodW r.date, r.service)

/-- The weekly grouping key of a change-outcome row. -/
def cfrWeeklyKeyOf (r : CfrRow) : ℤ × String := (toPeriodW r.date, r.service)

/-- The canonical change-outcome table produced from
`scenarioMetrics`. -/
def scenarioCfrRaw : List CfrRow :=
  [⟨"2024-01-01T11:00:00Z", daysFromCivil 2024 1 1, "A", "success", "", ""⟩,
   ⟨"2024-01-01T12:00:00Z", daysFromCivil 2024 1 1, "A", "failure", "", ""⟩]

/-- The canonical deployment table produced from `weekSumMetrics`. -/
def weekSumRaw : List DeployRow :=
  [⟨"2024-01-01T10:00:00Z", daysFromCivil 2024 1 1, "A", "d1", "unknown", ""⟩,
   ⟨"2024-01-03T09:00:00Z", daysFromCivil 2024 1 3, "A", "d2", "unknown", ""⟩,
   ⟨"2024-01-08T09:00:00Z", daysFromCivil 2024 1 8, "A", "d3", "unknown", ""⟩]

/-- The canonical lead-time table produced from `[negLeadRec]`. -/
def negLeadRaw : List LeadRow :=
  [⟨"2024-01-03T05:00:00Z", daysFromCivil 2024 1 3, "A", "",
    1704153600, 1704067200, ((-86400 : ℤ) : ℚ), mkRat (-86400) 60,
    mkRat (-86400) 3600⟩]

/-- A deployment row dated Sunday 2023-12-31 (ISO week 52 of 2023). -/
def sundayRow : DeployRow :=
  ⟨"2023-12-31T23:00:00", daysFromCivil 2023 12 31, "A", "dA", "unknown", ""⟩

/-- A deployment row dated Monday 2024-01-01 (ISO week 1 of 2024). -/
def mondayRow : DeployRow :=
  ⟨"2024-01-01T00:30:00", daysFromCivil 2024 1 1, "A", "dB", "unknown", ""⟩

end Dora

namespace Dora

/-! ### Rounding lemmas -/

theorem fract_intCast_div_natCast (a : ℤ) (d : ℕ) (hd : 0 < d) :
    Int.fract ((a : ℚ) / (d : ℚ)) = ((a % (d : ℤ) : ℤ) : ℚ) / (d : ℚ) := by
  have hd0 : ((d : ℚ)) ≠ 0 := by positivity
  have hfl := Rat.floor_intCast_div_natCast a d
  have : Int.fract ((a : ℚ) / (d : ℚ)) =
      (a : ℚ) / (d : ℚ) - ((a / (d : ℤ) : ℤ) : ℚ) := by
    rw [Int.fract, hfl]
  rw [this, Int.emod_def]
  push_cast
  field_simp

theorem rheAt_eq_rheVal (a : ℤ) (d : ℕ) (hd : 0 < d) :
    rheAt a (d : ℤ) = rheVal ((a : ℚ) / (d : ℚ)) := by
  have hdq : (0 : ℚ) < (d : ℚ) := by positivity
  have hdz : (0 : ℤ) < (d : ℤ) := by exact_mod_cast hd
  have hmod0 : 0 ≤ a % (d : ℤ) := Int.emod_nonneg a (by omega)
  have h1 : Int.fract ((a : ℚ) / (d : ℚ)) < 1/2 ↔ 2 * (a % (d : ℤ)) < (d : ℤ) := by
    rw [fract_intCast_div_natCast a d hd, div_lt_iff hdq]
    constructor
    · intro h
      have : ((2 * (a % (d : ℤ)) : ℤ) : ℚ) < ((d : ℤ) : ℚ) := by
        push_cast
        linarith
      exact_mod_cast this
    · intro h
      have : ((2 * (a % (d : ℤ)) : ℤ) : ℚ) < ((d : ℤ) : ℚ) := by exact_mod_cast h
      push_cast at this
      linarith
  have h2 : 1/2 < Int.fract ((a : ℚ) / (d : ℚ)) ↔ (d : ℤ) < 2 * (a % (d : ℤ)) := by
    rw [fract_intCast_div_natCast a d hd, lt_div_iff hdq]
    constructor
    · intro h
      have : (((d : ℤ)) : ℚ) < ((2 * (a % (d : ℤ)) : ℤ) : ℚ) := by
        push_cast
        linarith
      exact_mod_cast this
    · intro h
      have : (((d : ℤ)) : ℚ) < ((2 * (a % (d : ℤ)) : ℤ) : ℚ) := by exact_mod_cast h
      push_cast at this
      linarith
  simp only [rheAt, rheVal, Rat.floor_intCast_div_natCast, h1, h2]

theorem rheVal_add_compl (q : ℚ) : rheVal q + rheVal (10000 - q) = 10000 := by
  have hfl : ((⌊q⌋ : ℚ)) + Int.fract q = q := Int.floor_add_fract q
  have hf0 : 0 ≤ Int.fract q := Int.fract_nonneg q
  have hf1 : Int.fract q < 1 := Int.fract_lt_one q
  by_cases hf : Int.fract q = 0
  · have hc : (10000 : ℚ) - q = ((10000 - ⌊q⌋ : ℤ) : ℚ) := by
      push_cast
      linarith
    rw [rheVal, rheVal, hc, Int.fract_intCast, Int.floor_intCast, hf]
    norm_num
  · have hfpos : 0 < Int.fract q := lt_of_le_of_ne hf0 (Ne.symm hf)
    have hflr : ⌊(10000 : ℚ) - q⌋ = 9999 - ⌊q⌋ := by
      rw [Int.floor_eq_iff]
      constructor
      · push_cast
        linarith
      · push_cast
        linarith
    have hfr : Int.fract ((10000 : ℚ) - q) = 1 - Int.fract q := by
      rw [Int.fract, hflr]
      push_cast
      linarith
    rw [rheVal, rheVal, hflr, hfr]
    split_ifs <;> first
      | omega
      | (exfalso; linarith)

theorem rheVal_nonneg {q : ℚ} (h : 0 ≤ q) : 0 ≤ rheVal q := by
  have := Int.floor_nonneg.mpr h
  rw [rheVal]
  split_ifs <;> omega

theorem rheVal_le {q : ℚ} {B : ℤ} (h : q ≤ (B : ℚ)) : rheVal q ≤ B := by
  have hfl : ⌊q⌋ ≤ B := by
    have := Int.floor_le_floor h
    simpa using this
  by_cases he : ⌊q⌋ = B
  · have h1 : (B : ℚ) ≤ q := by
      calc (B : ℚ) = ((⌊q⌋ : ℤ) : ℚ) := by rw [he]
        _ ≤ q := Int.floor_le q
    have hq : q = (B : ℚ) := le_antisymm h h1
    have : Int.fract q = 0 := by
      rw [hq]
      exact Int.fract_intCast B
    rw [rheVal, this]
    norm_num
    omega
  · rw [rheVal]
    split_ifs <;> omega

theorem round2_eq (q : ℚ) :
    round2 q = ((rheVal (100 * q) : ℤ) : ℚ) / 100 := by
  have hd : 0 < q.den := q.pos
  have harg : ((100 * q.num : ℤ) : ℚ) / ((q.den : ℕ) : ℚ) = 100 * q := by
    push_cast
    rw [mul_div_assoc, Rat.num_div_den]
  rw [round2, Rat.mkRat_eq_div, rheAt_eq_rheVal _ _ hd, harg]
  norm_num

theorem round2_add_compl {u v : ℚ} (huv : u + v = 100) :
    round2 u + round2 v = 100 := by
  have hv : 100 * v = 10000 - 100 * u := by linarith
  rw [round2_eq, round2_eq, hv, div_add_div_same]
  have h1 := rheVal_add_compl (100 * u)
  have h2 : ((rheVal (100 * u) : ℤ) : ℚ) + ((rheVal (10000 - 100 * u) : ℤ) : ℚ)
      = 10000 := by
    have := congrArg (fun z : ℤ => (z : ℚ)) h1
    push_cast at this
    linarith
  rw [h2]
  norm_num

theorem round2_bounds {q : ℚ} (h0 : 0 ≤ q) (h1 : q ≤ 100) :
    0 ≤ round2 q ∧ round2 q ≤ 100 := by
  have ha : 0 ≤ rheVal (100 * q) := rheVal_nonneg (by linarith)
  have hb : rheVal (100 * q) ≤ 10000 :=
    rheVal_le (B := 10000) (by push_cast; linarith)
  rw [round2_eq]
  constructor
  · positivity
  · rw [div_le_iff (by norm_num)]
    calc ((rheVal (100 * q) : ℤ) : ℚ) ≤ ((10000 : ℤ) : ℚ) := by exact_mod_cast hb
      _ = 100 * 100 := by norm_num

/-! ### PFloat bridges -/

theorem num_cast_eq (a : ℚ) : ((a.num : ℤ) : ℚ) = a * ((a.den : ℕ) : ℚ) := by
  have ha : (((a.den : ℕ)) : ℚ) ≠ 0 := by
    have := a.pos
    positivity
  calc ((a.num : ℤ) : ℚ) = ((a.num : ℚ) / a.den) * a.den := by
        rw [div_mul_cancel₀ _ ha]
    _ = a * a.den := by rw [Rat.num_div_den]

theorem pdDiv_val (a b : ℚ) (hb : b ≠ 0) : pdDiv a b = .val (a / b) := by
  rw [pdDiv, if_neg hb, Rat.divInt_eq_div]
  have ha : (((a.den : ℕ)) : ℚ) ≠ 0 := by
    have := a.pos
    positivity
  have hbn : ((b.num : ℤ) : ℚ) ≠ 0 := by
    exact_mod_cast Rat.num_ne_zero.mpr hb
  have hy : (((b.num * (a.den : ℤ) : ℤ)) : ℚ) ≠ 0 := by
    push_cast
    exact mul_ne_zero hbn ha
  congr 1
  rw [div_eq_div_iff hy hb]
  push_cast
  rw [num_cast_eq a, num_cast_eq b]
  ring

theorem pfMul_val (q : ℚ) (c : ℤ) : pfMul (.val q) c = .val (q * c) := by
  rw [pfMul, Rat.divInt_eq_div]
  have hden : (((q.den : ℤ)) : ℚ) ≠ 0 := by
    have := q.pos
    push_cast
    positivity
  congr 1
  rw [div_eq_iff hden]
  push_cast
  rw [num_cast_eq q]
  ring

/-- The rate cell computed by the aggregator, for a bucket with `fa`
failures out of `tot` counted changes, `0 < tot`: the claimed formula
`round2 (fa / tot * 100)`. -/
theorem rate_cell_eq (fa tot : ℕ) (htot : 0 < tot) :
    round2PF (pfMul (pdDiv (fa : ℚ) (tot : ℚ)) 100) =
      .val (round2 ((fa : ℚ) / (tot : ℚ) * 100)) := by
  have h : ((tot : ℚ)) ≠ 0 := by positivity
  rw [pdDiv_val _ _ h, pfMul_val, round2PF]
  norm_num

/-- The rate cell for a bucket with `0 / 0`: pandas `NaN`. -/
theorem rate_cell_nan :
    round2PF (pfMul (pdDiv ((0 : ℕ) : ℚ) ((0 : ℕ) : ℚ)) 100) = .nan := by
  rfl

/-! ### Inversion of the aggregation entry points -/

theorem calcCFR_inv {ms : List MetricRecord} {daily : List CfrDailyRow}
    {weekly : List CfrWeeklyRow} {raw : List CfrRow}
    (h : calculate_change_failure_rate ms = .ok (.tables daily weekly raw)) :
    daily = cfrDailyOf raw ∧ weekly = cfrWeeklyStrOf raw ∧
      ∃ es, extractChanges ms = .ok es ∧ parseCfrRows es = .ok raw := by
  unfold calculate_change_failure_rate at h
  split at h
  · exact absurd h (by simp)
  · rename_i es he
    split at h
    · exact absurd h (by simp)
    · split at h
      · exact absurd h (by simp)
      · rename_i rows hp
        simp only [Except.ok.injEq, CfrResult.tables.injEq] at h
        obtain ⟨h1, h2, h3⟩ := h
        subst h3
        exact ⟨h1.symm, h2.symm, es, he, hp⟩

theorem calcLead_inv {ms : List MetricRecord} {daily : List LeadDailyRow}
    {raw : List LeadRow}
    (h : calculate_lead_time ms = .ok (.tables daily raw)) :
    daily = leadDailyOf raw ∧
      ∃ es, extractLeadTimes ms = .ok es ∧ parseLeadRows es = .ok raw := by
  unfold calculate_lead_time at h
  split at h
  · exact absurd h (by simp)
  · rename_i es he
    split at h
    · exact absurd h (by simp)
    · split at h
      · exact absurd h (by simp)
      · rename_i rows hp
        simp only [Except.ok.injEq, LeadResult.tables.injEq] at h
        obtain ⟨h1, h3⟩ := h
        subst h3
        exact ⟨h1.symm, es, he, hp⟩

theorem calcDF_inv {ms : List MetricRecord} {daily : List DailyFreqRow}
    {weekly : List WeeklyFreqRow} {monthly : List MonthlyFreqRow}
    {raw : List DeployRow}
    (h : calculate_deployment_frequency ms =
      .ok (.tables daily weekly monthly raw)) :
    daily = dailyFreqOf raw ∧ weekly = weeklyStrOf raw ∧
      monthly = monthlyStrOf raw ∧
      ∃ es, extractDeployments ms = .ok es ∧ parseDeployRows es = .ok raw := by
  unfold calculate_deployment_frequency at h
  split at h
  · exact absurd h (by simp)
  · rename_i es he
    split at h
    · exact absurd h (by simp)
    · split at h
      · exact absurd h (by simp)
      · rename_i rows hp
        simp only [Except.ok.injEq, FreqResult.tables.injEq] at h
        obtain ⟨h1, h2, h3, h4⟩ := h
        subst h4
        exact ⟨h1.symm, h2.symm, h3.symm, es, he, hp⟩

theorem cfrDaily_mem {raw : List CfrRow} {row : CfrDailyRow}
    (h : row ∈ cfrDailyOf raw) : ∃ k, row = cfrDailyRowOf raw k := by
  unfold cfrDailyOf at h
  obtain ⟨k, _, hk⟩ := List.mem_map.mp h
  exact ⟨k, hk.symm⟩

theorem rate_cell_props (fa su : ℕ) :
    (su + fa = 0 →
      round2PF (pfMul (pdDiv (fa : ℚ) ((su + fa : ℕ) : ℚ)) 100) = .nan) ∧
    (0 < su + fa →
      round2PF (pfMul (pdDiv (fa : ℚ) ((su + fa : ℕ) : ℚ)) 100) =
        .val (round2 ((fa : ℚ) / ((su + fa : ℕ) : ℚ) * 100)) ∧
      ∃ q, round2PF (pfMul (pdDiv (fa : ℚ) ((su + fa : ℕ) : ℚ)) 100) =
          .val q ∧ 0 ≤ q ∧ q ≤ 100) := by
  constructor
  · intro h0
    have hfa : fa = 0 := by omega
    subst hfa
    rw [h0]
    simp [pdDiv, pfMul, round2PF]
  · intro hpos
    have he := rate_cell_eq fa (su + fa) hpos
    refine ⟨he, round2 ((fa : ℚ) / ((su + fa : ℕ) : ℚ) * 100), he, ?_⟩
    have hq : (0 : ℚ) < ((su + fa : ℕ) : ℚ) := by exact_mod_cast hpos
    have h1 : (0 : ℚ) ≤ (fa : ℚ) / ((su + fa : ℕ) : ℚ) * 100 := by positivity
    have h2 : (fa : ℚ) / ((su + fa : ℕ) : ℚ) ≤ 1 := by
      rw [div_le_one hq]
      exact_mod_cast Nat.le_add_left fa su
    exact round2_bounds h1 (by linarith)

theorem rate_cell_props_fst (su fa : ℕ) :
    (0 < su + fa →
      round2PF (pfMul (pdDiv (su : ℚ) ((su + fa : ℕ) : ℚ)) 100) =
        .val (round2 ((su : ℚ) / ((su + fa : ℕ) : ℚ) * 100)) ∧
      ∃ q, round2PF (pfMul (pdDiv (su : ℚ) ((su + fa : ℕ) : ℚ)) 100) =
          .val q ∧ 0 ≤ q ∧ q ≤ 100) := by
  intro hpos
  have he := rate_cell_eq su (su + fa) hpos
  refine ⟨he, round2 ((su : ℚ) / ((su + fa : ℕ) : ℚ) * 100), he, ?_⟩
  have hq : (0 : ℚ) < ((su + fa : ℕ) : ℚ) := by exact_mod_cast hpos
  have h1 : (0 : ℚ) ≤ (su : ℚ) / ((su + fa : ℕ) : ℚ) * 100 := by positivity
  have h2 : (su : ℚ) / ((su + fa : ℕ) : ℚ) ≤ 1 := by
    rw [div_le_one hq]
    exact_mod_cast Nat.le_add_right su fa
  exact round2_bounds h1 (by linarith)

/-- C3 (amended): in both the daily and the weekly change-failure
aggregates, every row satisfies `total_changes = success + failure`;
when `total_changes` is positive the failure rate is exactly
`failure / total_changes * 100` rounded half-to-even at two decimals
and lies in the interval from 0 to 100; but when `total_changes = 0`
(a bucket whose statuses are all neither `success` nor `failure`) the
failure rate is the pandas `NaN` resulting from `0 / 0`, not 0.  No
division error is raised either way (the aggregation returned `ok`). -/
theorem claim3_amended {ms : List MetricRecord} {daily : List CfrDailyRow}
    {weekly : List CfrWeeklyRow} {raw : List CfrRow}
    (h : calculate_change_failure_rate ms = .ok (.tables daily weekly raw)) :
    (∀ row ∈ daily,
      row.total_changes = row.success + row.failure ∧
      (row.total_changes = 0 → row.failure_rate = PFloat.nan) ∧
      (0 < row.total_changes →
        row.failure_rate =
          .val (round2 ((row.failure : ℚ) / ((row.total_changes : ℕ) : ℚ) * 100)) ∧
        ∃ q, row.failure_rate = PFloat.val q ∧ 0 ≤ q ∧ q ≤ 100)) ∧
    (∀ row ∈ weekly,
      row.total_changes = row.success + row.failure ∧
      (row.total_changes = 0 → row.failure_rate = PFloat.nan) ∧
      (0 < row.total_changes →
        row.failure_rate =
          .val (round2 ((row.failure : ℚ) / ((row.total_changes : ℕ) : ℚ) * 100)) ∧
        ∃ q, row.failure_rate = PFloat.val q ∧ 0 ≤ q ∧ q ≤ 100)) := by
  obtain ⟨hd, hw, -⟩ := calcCFR_inv h
  subst hd
  subst hw
  constructor
  · intro row hrow
    obtain ⟨k, rfl⟩ := cfrDaily_mem hrow
    have hp := rate_cell_props (statusCountDay raw k.1 k.2 "failure")
      (statusCountDay raw k.1 k.2 "success")
    exact ⟨rfl, hp.1, hp.2⟩
  · intro row hrow
    unfold cfrWeeklyStrOf at hrow
    obtain ⟨pr, hpr, hk⟩ := List.mem_map.mp hrow
    unfold cfrWeeklyPeriodsOf at hpr
    obtain ⟨k, _, hk2⟩ := List.mem_map.mp hpr
    subst hk2
    subst hk
    have hp := rate_cell_props (statusCountWeek raw k.1 k.2 "failure")
      (statusCountWeek raw k.1 k.2 "success")
    exact ⟨rfl, hp.1, hp.2⟩

/-- C5 (amended): in every daily change-failure row the two status
columns count exactly the rows with that status, only `success` and
`failure` feed `total_changes`, and whenever `total_changes` is
positive, `success_rate` is `success / total_changes * 100` rounded to
two decimals and `success_rate + failure_rate` is exactly 100.  (Rows
with `total_changes = 0` instead carry `NaN` rates, whose sum is
`NaN`, the correction to the claim.) -/
theorem claim5_amended {ms : List MetricRecord} {daily : List CfrDailyRow}
    {weekly : List CfrWeeklyRow} {raw : List CfrRow}
    (h : calculate_change_failure_rate ms = .ok (.tables daily weekly raw)) :
    ∀ row ∈ daily,
      row.success = statusCountDay raw row.date row.service "success" ∧
      row.failure = statusCountDay raw row.date row.service "failure" ∧
      row.total_changes = row.success + row.failure ∧
      (0 < row.total_changes →
        row.success_rate =
          .val (round2 ((row.success : ℚ) / ((row.total_changes : ℕ) : ℚ) * 100)) ∧
        pfAdd row.success_rate row.failure_rate = PFloat.val 100) := by
  obtain ⟨hd, -, -⟩ := calcCFR_inv h
  subst hd
  intro row hrow
  obtain ⟨k, rfl⟩ := cfrDaily_mem hrow
  refine ⟨rfl, rfl, rfl, ?_⟩
  intro hpos
  have hpos' : 0 < statusCountDay raw k.1 k.2 "success" +
      statusCountDay raw k.1 k.2 "failure" := hpos
  have hsu := rate_cell_props_fst (statusCountDay raw k.1 k.2 "success")
    (statusCountDay raw k.1 k.2 "failure") hpos'
  have hfa := (rate_cell_props (statusCountDay raw k.1 k.2 "failure")
    (statusCountDay raw k.1 k.2 "success")).2 hpos'
  simp only [cfrDailyRowOf]
  refine ⟨hsu.1, ?_⟩
  rw [hsu.1, hfa.1, pfAdd]
  have htotq : (0 : ℚ) <
      ((statusCountDay raw k.1 k.2 "success" +
        statusCountDay raw k.1 k.2 "failure" : ℕ) : ℚ) := by
    exact_mod_cast hpos
  have hsum : (statusCountDay raw k.1 k.2 "success" : ℚ) /
        ((statusCountDay raw k.1 k.2 "success" +
          statusCountDay raw k.1 k.2 "failure" : ℕ) : ℚ) * 100 +
      (statusCountDay raw k.1 k.2 "failure" : ℚ) /
        ((statusCountDay raw k.1 k.2 "success" +
          statusCountDay raw k.1 k.2 "failure" : ℕ) : ℚ) * 100 = 100 := by
    rw [div_mul_eq_mul_div, div_mul_eq_mul_div, div_add_div_same,
      div_eq_iff (ne_of_gt htotq)]
    push_cast
    ring
  rw [round2_add_compl hsum]

/-! ### Extraction success forces the required fields -/

theorem extractDeployments_ok_fields {ms : List MetricRecord}
    {es : List DeployEntry} (h : extractDeployments ms = .ok es) :
    ∀ m ∈ ms, ∀ p, m.deployment_frequency = some p →
      m.timestamp ≠ none ∧ m.service ≠ none ∧ p.deployment_id ≠ none := by
  induction ms generalizing es with
  | nil => intro m hm; exact absurd hm (List.not_mem_nil m)
  | cons m0 rest ih =>
    intro m hm p hp
    rw [List.mem_cons] at hm
    cases hp0 : m0.deployment_frequency with
    | none =>
      simp only [extractDeployments, hp0] at h
      rcases hm with rfl | hm
      · rw [hp0] at hp
        exact absurd hp (by simp)
      · exact ih h m hm p hp
    | some p0 =>
      cases hts0 : m0.timestamp with
      | none => simp [extractDeployments, hp0, hts0] at h
      | some ts0 =>
        cases hsv0 : m0.service with
        | none => simp [extractDeployments, hp0, hts0, hsv0] at h
        | some sv0 =>
          cases hid0 : p0.deployment_id with
          | none => simp [extractDeployments, hp0, hts0, hsv0, hid0] at h
          | some did0 =>
            cases hrec : extractDeployments rest with
            | error e =>
              simp [extractDeployments, hp0, hts0, hsv0, hid0, hrec] at h
            | ok rest' =>
              rcases hm with rfl | hm
              · rw [hp0] at hp
                cases hp
                exact ⟨by simp [hts0], by simp [hsv0], by simp [hid0]⟩
              · exact ih hrec m hm p hp

theorem extractLeadTimes_ok_fields {ms : List MetricRecord}
    {es : List LeadEntry} (h : extractLeadTimes ms = .ok es) :
    ∀ m ∈ ms, ∀ p, m.lead_time_for_changes = some p →
      p.commit_timestamp ≠ none ∧ p.deploy_timestamp ≠ none := by
  induction ms generalizing es with
  | nil => intro m hm; exact absurd hm (List.not_mem_nil m)
  | cons m0 rest ih =>
    intro m hm p hp
    rw [List.mem_cons] at hm
    cases hp0 : m0.lead_time_for_changes with
    | none =>
      simp only [extractLeadTimes, hp0] at h
      rcases hm with rfl | hm
      · rw [hp0] at hp
        exact absurd hp (by simp)
      · exact ih h m hm p hp
    | some p0 =>
      cases hcs0 : p0.commit_timestamp with
      | none => simp [extractLeadTimes, hp0, hcs0] at h
      | some cs0 =>
        cases hpc : parseOrErr cs0 with
        | error e => simp [extractLeadTimes, hp0, hcs0, hpc] at h
        | ok tc0 =>
          cases hds0 : p0.deploy_timestamp with
          | none => simp [extractLeadTimes, hp0, hcs0, hpc, hds0] at h
          | some ds0 =>
            cases hpd : parseOrErr ds0 with
            | error e =>
              simp [extractLeadTimes, hp0, hcs0, hpc, hds0, hpd] at h
            | ok td0 =>
              cases hts0 : m0.timestamp with
              | none =>
                simp [extractLeadTimes, hp0, hcs0, hpc, hds0, hpd, hts0] at h
              | some ts0 =>
                cases hsv0 : m0.service with
                | none =>
                  simp [extractLeadTimes, hp0, hcs0, hpc, hds0, hpd, hts0,
                    hsv0] at h
                | some sv0 =>
                  cases hrec : extractLeadTimes rest with
                  | error e =>
                    simp [extractLeadTimes, hp0, hcs0, hpc, hds0, hpd, hts0,
                      hsv0, hrec] at h
                  | ok rest' =>
                    rcases hm with rfl | hm
                    · rw [hp0] at hp
                      cases hp
                      exact ⟨by simp [hcs0], by simp [hds0]⟩
                    · exact ih hrec m hm p hp

theorem extractChanges_ok_fields {ms : List MetricRecord}
    {es : List CfrEntry} (h : extractChanges ms = .ok es) :
    ∀ m ∈ ms, ∀ p, m.change_failure_rate = some p →
      m.timestamp ≠ none ∧ m.service ≠ none ∧ p.status ≠ none := by
  induction ms generalizing es with
  | nil => intro m hm; exact absurd hm (List.not_mem_nil m)
  | cons m0 rest ih =>
    intro m hm p hp
    rw [List.mem_cons] at hm
    cases hp0 : m0.change_failure_rate with
    | none =>
      simp only [extractChanges, hp0] at h
      rcases hm with rfl | hm
      · rw [hp0] at hp
        exact absurd hp (by simp)
      · exact ih h m hm p hp
    | some p0 =>
      cases hts0 : m0.timestamp with
      | none => simp [extractChanges, hp0, hts0] at h
      | some ts0 =>
        cases hsv0 : m0.service with
        | none => simp [extractChanges, hp0, hts0, hsv0] at h
        | some sv0 =>
          cases hst0 : p0.status with
          | none => simp [extractChanges, hp0, hts0, hsv0, hst0] at h
          | some st0 =>
            cases hrec : extractChanges rest with
            | error e =>
              simp [extractChanges, hp0, hts0, hsv0, hst0, hrec] at h
            | ok rest' =>
              rcases hm with rfl | hm
              · rw [hp0] at hp
                cases hp
                exact ⟨by simp [hts0], by simp [hsv0], by simp [hst0]⟩
              · exact ih hrec m hm p hp

/-! ### Error propagation through the run -/

theorem calcDF_err_of_extract {ms : List MetricRecord} {e : String}
    (h : extractDeployments ms = .error e) :
    calculate_deployment_frequency ms = .error e := by
  unfold calculate_deployment_frequency
  rw [h]

theorem calcLT_err_of_extract {ms : List MetricRecord} {e : String}
    (h : extractLeadTimes ms = .error e) :
    calculate_lead_time ms = .error e := by
  unfold calculate_lead_time
  rw [h]

theorem calcCFR_err_of_extract {ms : List MetricRecord} {e : String}
    (h : extractChanges ms = .error e) :
    calculate_change_failure_rate ms = .error e := by
  unfold calculate_change_failure_rate
  rw [h]

theorem generate_err_of_df {ms : List MetricRecord} {e : String}
    (hne : ms ≠ []) (h : calculate_deployment_frequency ms = .error e) :
    generate_powerbi_export ms = .error e := by
  unfold generate_powerbi_export
  rw [if_neg (by simpa using hne), h]

theorem generate_err_of_lt {ms : List MetricRecord} {e : String}
    (hne : ms ≠ []) (h : calculate_lead_time ms = .error e) :
    ∃ e2, generate_powerbi_export ms = .error e2 := by
  unfold generate_powerbi_export
  rw [if_neg (by simpa using hne)]
  cases hdf : calculate_deployment_frequency ms with
  | error e1 => exact ⟨e1, rfl⟩
  | ok df =>
    rw [h]
    exact ⟨e, rfl⟩

theorem generate_err_of_cfr {ms : List MetricRecord} {e : String}
    (hne : ms ≠ []) (h : calculate_change_failure_rate ms = .error e) :
    ∃ e2, generate_powerbi_export ms = .error e2 := by
  unfold generate_powerbi_export
  rw [if_neg (by simpa using hne)]
  cases hdf : calculate_deployment_frequency ms with
  | error e1 => exact ⟨e1, rfl⟩
  | ok df =>
    cases hlt : calculate_lead_time ms with
    | error e1 => exact ⟨e1, rfl⟩
    | ok lt =>
      rw [h]
      exact ⟨e, rfl⟩

/-- C1 (amended): a record carrying a recognized metric payload key
but missing a required field for that metric (`deployment_id`,
`commit_timestamp` or `deploy_timestamp`, `status`) is not skipped:
the `KeyError` raised on that one record aborts its whole extraction
loop, and the whole run errors out, so the other records and the other
metric pipelines are never exported. -/
theorem claim1_amended (ms : List MetricRecord) :
    (∀ m ∈ ms, ∀ p, m.deployment_frequency = some p →
      p.deployment_id = none →
      (∃ e, extractDeployments ms = .error e) ∧
      ∃ e, generate_powerbi_export ms = .error e) ∧
    (∀ m ∈ ms, ∀ p, m.lead_time_for_changes = some p →
      (p.commit_timestamp = none ∨ p.deploy_timestamp = none) →
      (∃ e, extractLeadTimes ms = .error e) ∧
      ∃ e, generate_powerbi_export ms = .error e) ∧
    (∀ m ∈ ms, ∀ p, m.change_failure_rate = some p → p.status = none →
      (∃ e, extractChanges ms = .error e) ∧
      ∃ e, generate_powerbi_export ms = .error e) := by
  have hne : ∀ m ∈ ms, ms ≠ [] := by
    intro m hm he
    rw [he] at hm
    exact List.not_mem_nil m hm
  refine ⟨?_, ?_, ?_⟩
  · intro m hm p hp hid
    have herr : ∃ e, extractDeployments ms = .error e := by
      cases hx : extractDeployments ms with
      | error e => exact ⟨e, rfl⟩
      | ok es =>
        have := (extractDeployments_ok_fields hx m hm p hp).2.2
        exact absurd hid this
    obtain ⟨e, he⟩ := herr
    exact ⟨⟨e, he⟩, e,
      generate_err_of_df (hne m hm) (calcDF_err_of_extract he)⟩
  · intro m hm p hp hmiss
    have herr : ∃ e, extractLeadTimes ms = .error e := by
      cases hx : extractLeadTimes ms with
      | error e => exact ⟨e, rfl⟩
      | ok es =>
        have hf := extractLeadTimes_ok_fields hx m hm p hp
        rcases hmiss with h1 | h1
        · exact absurd h1 hf.1
        · exact absurd h1 hf.2
    obtain ⟨e, he⟩ := herr
    exact ⟨⟨e, he⟩,
      generate_err_of_lt (hne m hm) (calcLT_err_of_extract he)⟩
  · intro m hm p hp hst
    have herr : ∃ e, extractChanges ms = .error e := by
      cases hx : extractChanges ms with
      | error e => exact ⟨e, rfl⟩
      | ok es =>
        have := (extractChanges_ok_fields hx m hm p hp).2.2
        exact absurd hst this
    obtain ⟨e, he⟩ := herr
    exact ⟨⟨e, he⟩,
      generate_err_of_cfr (hne m hm) (calcCFR_err_of_extract he)⟩

/-- Witness for the amended C1 at a concrete batch: the deployment
record without `deployment_id` makes the whole run error out. -/
theorem claim1_witness :
    (∃ e, extractDeployments missingFieldMetrics = .error e) ∧
    ∃ e, generate_powerbi_export missingFieldMetrics = .error e :=
  (claim1_amended missingFieldMetrics).1 badDeployRec (by decide)
    ⟨none, some "main", none⟩ rfl rfl

/-! ### Summation of daily counts over a week -/

theorem sum_indicator_range (m : ℕ) (d w : ℤ) :
    (∑ i ∈ Finset.range m, if d = w + (i : ℤ) then (1 : ℕ) else 0) =
      if w ≤ d ∧ d < w + (m : ℤ) then 1 else 0 := by
  induction m with
  | zero =>
    simp only [Finset.range_zero, Finset.sum_empty]
    rw [if_neg]
    push_cast
    omega
  | succ n ih =>
    rw [Finset.sum_range_succ, ih]
    push_cast
    split_ifs <;> omega

theorem toPeriodW_aligned (n : ℤ) : (toPeriodW n + 3) % 7 = 0 := by
  unfold toPeriodW
  omega

theorem toPeriodW_eq_iff {d w : ℤ} (hal : (w + 3) % 7 = 0) :
    toPeriodW d = w ↔ w ≤ d ∧ d < w + 7 := by
  unfold toPeriodW
  omega

theorem weekly_eq_sum_daily (rows : List DeployRow) (w : ℤ) (s : String)
    (hal : (w + 3) % 7 = 0) :
    weeklyCountOn rows w s =
      ∑ i ∈ Finset.range 7, dailyCountOn rows (w + (i : ℤ)) s := by
  induction rows with
  | nil => simp [weeklyCountOn, dailyCountOn]
  | cons r rs ih =>
    have hstep : ∀ i : ℤ, dailyCountOn (r :: rs) i s =
        dailyCountOn rs i s +
          (if r.date = i ∧ r.service = s then 1 else 0) := by
      intro i
      unfold dailyCountOn
      rw [List.countP_cons]
      simp
    have hw : weeklyCountOn (r :: rs) w s = weeklyCountOn rs w s +
        (if toPeriodW r.date = w ∧ r.service = s then 1 else 0) := by
      unfold weeklyCountOn
      rw [List.countP_cons]
      simp
    have hsum : (∑ i ∈ Finset.range 7, dailyCountOn (r :: rs) (w + (i : ℤ)) s)
        = ∑ i ∈ Finset.range 7, (dailyCountOn rs (w + (i : ℤ)) s +
            if r.date = w + (i : ℤ) ∧ r.service = s then 1 else 0) :=
      Finset.sum_congr rfl (fun i _ => hstep (w + (i : ℤ)))
    rw [hw, ih, hsum, Finset.sum_add_distrib]
    congr 1
    by_cases hsv : r.service = s
    · simp only [hsv, and_true]
      rw [sum_indicator_range 7 r.date w]
      have hiff := toPeriodW_eq_iff (d := r.date) hal
      have h7 : ((7 : ℕ) : ℤ) = 7 := by norm_num
      rw [h7]
      exact if_congr hiff rfl rfl
    · simp [hsv]

theorem dailyFreqOf_mem {rows : List DeployRow} {dr : DailyFreqRow}
    (h : dr ∈ dailyFreqOf rows) :
    dr.deployment_count = dailyCountOn rows dr.date dr.service := by
  unfold dailyFreqOf at h
  obtain ⟨k, _, hk⟩ := List.mem_map.mp h
  rw [← hk]

theorem weeklyPeriodsOf_mem {rows : List DeployRow} {pr : WeeklyPeriodRow}
    (h : pr ∈ weeklyPeriodsOf rows) :
    pr.deployment_count = weeklyCountOn rows pr.week pr.service ∧
      (pr.week + 3) % 7 = 0 := by
  unfold weeklyPeriodsOf at h
  obtain ⟨k, hkmem, hk⟩ := List.mem_map.mp h
  unfold freqWeekKeys at hkmem
  rw [List.mem_dedup] at hkmem
  obtain ⟨r, _, hr⟩ := List.mem_map.mp hkmem
  subst hk
  refine ⟨rfl, ?_⟩
  rw [← hr]
  exact toPeriodW_aligned r.date

theorem dailyCountOn_zero_of_absent {rows : List DeployRow} {d : ℤ}
    {s : String}
    (h : ∀ dr ∈ dailyFreqOf rows, ¬(dr.date = d ∧ dr.service = s)) :
    dailyCountOn rows d s = 0 := by
  by_contra hne
  have hne2 : ¬ (∀ r ∈ rows, ¬ (r.date = d ∧ r.service = s)) := by
    intro hall
    refine hne ?_
    unfold dailyCountOn
    refine List.countP_eq_zero.mpr ?_
    intro a ha
    simpa using hall a ha
  push_neg at hne2
  obtain ⟨r, hr, hd, hs⟩ := hne2
  have hkey : (d, s) ∈ freqDayKeys rows := by
    unfold freqDayKeys
    rw [List.mem_dedup]
    exact List.mem_map.mpr ⟨r, hr, by rw [hd, hs]⟩
  have hmem : (⟨d, s, dailyCountOn rows d s⟩ : DailyFreqRow) ∈
      dailyFreqOf rows := by
    unfold dailyFreqOf
    exact List.mem_map.mpr ⟨(d, s), hkey, rfl⟩
  exact h _ hmem ⟨rfl, rfl⟩

/-- C6: for a nonempty deployment table, the three granularities are
independent re-groupings of the same canonical table; every daily row
carries the count of its (date, service) group, a (date, service) pair
with no daily row has count zero, and for every week bucket (a
Monday-aligned period) and service, the weekly count is the sum of the
daily counts over the seven days of that week. -/
theorem claim6_week_sum {ms : List MetricRecord} {daily : List DailyFreqRow}
    {weekly : List WeeklyFreqRow} {monthly : List MonthlyFreqRow}
    {raw : List DeployRow}
    (h : calculate_deployment_frequency ms =
      .ok (.tables daily weekly monthly raw)) :
    (daily = dailyFreqOf raw ∧ weekly = weeklyStrOf raw ∧
      monthly = monthlyStrOf raw) ∧
    (∀ dr ∈ daily, dr.deployment_count = dailyCountOn raw dr.date dr.service) ∧
    (∀ d s, (∀ dr ∈ daily, ¬(dr.date = d ∧ dr.service = s)) →
      dailyCountOn raw d s = 0) ∧
    (∀ pr ∈ weeklyPeriodsOf raw,
      dayOfWeek pr.week = 0 ∧
      pr.deployment_count =
        ∑ i ∈ Finset.range 7, dailyCountOn raw (pr.week + (i : ℤ))
          pr.service) := by
  obtain ⟨hd, hw, hm, -⟩ := calcDF_inv h
  subst hd
  refine ⟨⟨rfl, hw, hm⟩, ?_, ?_, ?_⟩
  · intro dr hdr
    exact dailyFreqOf_mem hdr
  · intro d s habs
    exact dailyCountOn_zero_of_absent habs
  · intro pr hpr
    obtain ⟨hc, hal⟩ := weeklyPeriodsOf_mem hpr
    refine ⟨hal, ?_⟩
    rw [hc]
    exact weekly_eq_sum_daily raw pr.week pr.service hal

/-- Witness for C6: two deployments in the ISO week of 2024-01-01 and
one the following Monday, all for service A; the weekly count 2 equals
the sum of the daily counts over that week. -/
theorem claim6_witness :
    (⟨daysFromCivil 2024 1 1, "A", 2⟩ : WeeklyPeriodRow).deployment_count =
      ∑ i ∈ Finset.range 7,
        dailyCountOn weekSumRaw (daysFromCivil 2024 1 1 + (i : ℤ)) "A" := by
  have h := @claim6_week_sum weekSumMetrics (dailyFreqOf weekSumRaw)
    (weeklyStrOf weekSumRaw) (monthlyStrOf weekSumRaw) weekSumRaw rfl
  exact (h.2.2.2 ⟨daysFromCivil 2024 1 1, "A", 2⟩ (by decide)).2

/-- C4: on the three-event scenario (one deployment, one success
outcome, one failure outcome, all for service A on 2024-01-01) the
daily deployment aggregate has a single row with count 1 for
(2024-01-01, A), and the daily change-failure aggregate has a single
row for (2024-01-01, A) with success 1, failure 1, total 2 and a
failure rate of exactly 50. -/
theorem claim4_scenario :
    freqDailyOf (calculate_deployment_frequency scenarioMetrics) =
      [⟨day20240101, "A", 1⟩] ∧
    cfrDailyTableOf (calculate_change_failure_rate scenarioMetrics) =
      [⟨day20240101, "A", 1, 1, 2, .val 50, .val 50⟩] := by
  constructor
  · rfl
  · rfl

/-- C2 (failing input): with a nonempty ingested set whose only record
is a lead-time event, the deployment aggregation does return the
explicitly empty result without raising, and the lead-time aggregation
succeeds with data, but the exporter raises the pandas DataFrame
truthiness `ValueError` instead of skipping the deployment files, so
the lead-time export and the summary never happen. -/
theorem claim2_exporter_raises :
    calculate_deployment_frequency leadOnlyMetrics = .ok .empty ∧
    (calculate_lead_time leadOnlyMetrics).isOk = true ∧
    generate_powerbi_export leadOnlyMetrics = .error dfTruthMsg := by
  refine ⟨rfl, rfl, rfl⟩

/-- C1 counterexample: a batch holding one good lead-time record and
one deployment record missing its required `deployment_id`.  The
extractor does not skip the bad record and continue: it raises the
`KeyError`, and the whole run errors out with it, so the good
lead-time record is never aggregated or exported. -/
theorem claim1_counterexample :
    extractDeployments missingFieldMetrics =
      .error "KeyError: deployment_id" ∧
    generate_powerbi_export missingFieldMetrics =
      .error "KeyError: deployment_id" := by
  refine ⟨rfl, rfl⟩

/-- C3 counterexample: a batch whose single change outcome has status
`deployed`.  Its daily row has `total_changes = 0`, and the failure
rate is the pandas `NaN` (from `0 / 0`), not the value `0` the claim
states. -/
theorem claim3_counterexample :
    cfrDailyTableOf (calculate_change_failure_rate otherStatusMetrics) =
      [⟨day20240101, "A", 0, 0, 0, .nan, .nan⟩] ∧
    PFloat.nan ≠ PFloat.val 0 := by
  refine ⟨rfl, by decide⟩

/-- C5 counterexample: a batch whose single change outcome has status
`rollback`.  Its daily row has `NaN` success and failure rates, and
their sum is `NaN`, not 100. -/
theorem claim5_counterexample :
    cfrDailyTableOf (calculate_change_failure_rate rollbackMetrics) =
      [⟨daysFromCivil 2024 2 6, "B", 0, 0, 0, .nan, .nan⟩] ∧
    pfAdd PFloat.nan PFloat.nan ≠ PFloat.val 100 := by
  refine ⟨rfl, by decide⟩

/-- Witness for the amended C3 on the three-event scenario: the
(2024-01-01, A) daily row has a failure rate strictly inside the unit
interval scaled to 100. -/
theorem claim3_witness :
    ∃ q, (cfrDailyRowOf scenarioCfrRaw (daysFromCivil 2024 1 1, "A")).failure_rate =
      PFloat.val q ∧ 0 ≤ q ∧ q ≤ 100 := by
  have h := (@claim3_amended scenarioMetrics (cfrDailyOf scenarioCfrRaw)
    (cfrWeeklyStrOf scenarioCfrRaw) scenarioCfrRaw rfl).1
  have hmem : cfrDailyRowOf scenarioCfrRaw (daysFromCivil 2024 1 1, "A") ∈
      cfrDailyOf scenarioCfrRaw := by decide
  exact ((h _ hmem).2.2 (by decide)).2

/-- Witness for the amended C5 on the three-event scenario: the
(2024-01-01, A) daily row has rates summing to exactly 100. -/
theorem claim5_witness :
    pfAdd (cfrDailyRowOf scenarioCfrRaw (daysFromCivil 2024 1 1, "A")).success_rate
      (cfrDailyRowOf scenarioCfrRaw (daysFromCivil 2024 1 1, "A")).failure_rate =
      PFloat.val 100 := by
  have h := @claim5_amended scenarioMetrics (cfrDailyOf scenarioCfrRaw)
    (cfrWeeklyStrOf scenarioCfrRaw) scenarioCfrRaw rfl
  have hmem : cfrDailyRowOf scenarioCfrRaw (daysFromCivil 2024 1 1, "A") ∈
      cfrDailyOf scenarioCfrRaw := by decide
  exact ((h _ hmem).2.2.2 (by decide)).2

/-! ### Lead-time membership chain (C7) -/

theorem foldl_min_le (xs : List ℚ) (a : ℚ) :
    xs.foldl min a ≤ a ∧ ∀ v ∈ xs, xs.foldl min a ≤ v := by
  induction xs generalizing a with
  | nil => exact ⟨le_refl a, by intro v hv; exact absurd hv (List.not_mem_nil v)⟩
  | cons x xs ih =>
    have h := ih (min a x)
    constructor
    · exact le_trans h.1 (min_le_left a x)
    · intro v hv
      rw [List.mem_cons] at hv
      rcases hv with rfl | hv
      · exact le_trans h.1 (min_le_right a v)
      · exact h.2 v hv

theorem le_foldl_max (xs : List ℚ) (a : ℚ) :
    a ≤ xs.foldl max a ∧ ∀ v ∈ xs, v ≤ xs.foldl max a := by
  induction xs generalizing a with
  | nil => exact ⟨le_refl a, by intro v hv; exact absurd hv (List.not_mem_nil v)⟩
  | cons x xs ih =>
    have h := ih (max a x)
    constructor
    · exact le_trans (le_max_left a x) h.1
    · intro v hv
      rw [List.mem_cons] at hv
      rcases hv with rfl | hv
      · exact le_trans (le_max_right a v) h.1
      · exact h.2 v hv

theorem listMin_le {l : List ℚ} {v : ℚ} (h : v ∈ l) : listMin l ≤ v := by
  cases l with
  | nil => exact absurd h (List.not_mem_nil v)
  | cons x xs =>
    rw [List.mem_cons] at h
    unfold listMin
    rcases h with rfl | h
    · exact (foldl_min_le xs v).1
    · exact (foldl_min_le xs x).2 v h

theorem le_listMax {l : List ℚ} {v : ℚ} (h : v ∈ l) : v ≤ listMax l := by
  cases l with
  | nil => exact absurd h (List.not_mem_nil v)
  | cons x xs =>
    rw [List.mem_cons] at h
    unfold listMax
    rcases h with rfl | h
    · exact (le_foldl_max xs v).1
    · exact (le_foldl_max xs x).2 v h

theorem extractLeadTimes_mem {ms : List MetricRecord} {es : List LeadEntry}
    (h : extractLeadTimes ms = .ok es) {m : MetricRecord} (hm : m ∈ ms)
    {p : LeadPayload} (hp : m.lead_time_for_changes = some p)
    {cs : String} (hcs : p.commit_timestamp = some cs)
    {tc : ℤ} (htc : parseDT cs = some tc)
    {ds : String} (hds : p.deploy_timestamp = some ds)
    {td : ℤ} (htd : parseDT ds = some td)
    {ts : String} (hts : m.timestamp = some ts)
    {sv : String} (hsv : m.service = some sv) :
    leadEntryOf ts sv p tc td ∈ es := by
  induction ms generalizing es with
  | nil => exact absurd hm (List.not_mem_nil m)
  | cons m0 rest ih =>
    rw [List.mem_cons] at hm
    cases hp0 : m0.lead_time_for_changes with
    | none =>
      simp only [extractLeadTimes, hp0] at h
      rcases hm with rfl | hm
      · rw [hp0] at hp
        exact absurd hp (by simp)
      · exact ih h hm
    | some p0 =>
      cases hcs0 : p0.commit_timestamp with
      | none => simp [extractLeadTimes, hp0, hcs0] at h
      | some cs0 =>
        cases hpc : parseOrErr cs0 with
        | error e => simp [extractLeadTimes, hp0, hcs0, hpc] at h
        | ok tc0 =>
          cases hds0 : p0.deploy_timestamp with
          | none => simp [extractLeadTimes, hp0, hcs0, hpc, hds0] at h
          | some ds0 =>
            cases hpd : parseOrErr ds0 with
            | error e =>
              simp [extractLeadTimes, hp0, hcs0, hpc, hds0, hpd] at h
            | ok td0 =>
              cases hts0 : m0.timestamp with
              | none =>
                simp [extractLeadTimes, hp0, hcs0, hpc, hds0, hpd, hts0] at h
              | some ts0 =>
                cases hsv0 : m0.service with
                | none =>
                  simp [extractLeadTimes, hp0, hcs0, hpc, hds0, hpd, hts0,
                    hsv0] at h
                | some sv0 =>
                  cases hrec : extractLeadTimes rest with
                  | error e =>
                    simp [extractLeadTimes, hp0, hcs0, hpc, hds0, hpd, hts0,
                      hsv0, hrec] at h
                  | ok rest' =>
                    have hes : es = leadEntryOf ts0 sv0 p0 tc0 td0 :: rest' := by
                      simp [extractLeadTimes, hp0, hcs0, hpc, hds0, hpd,
                        hts0, hsv0, hrec] at h
                      exact h.symm
                    subst hes
                    rcases hm with rfl | hm
                    · rw [hp0] at hp
                      cases hp
                      rw [hcs0] at hcs
                      cases hcs
                      rw [hds0] at hds
                      cases hds
                      rw [hts0] at hts
                      cases hts
                      rw [hsv0] at hsv
                      cases hsv
                      have htc0 : tc0 = tc := by
                        unfold parseOrErr at hpc
                        rw [htc] at hpc
                        exact (Except.ok.injEq _ _).mp hpc.symm
                      have htd0 : td0 = td := by
                        unfold parseOrErr at hpd
                        rw [htd] at hpd
                        exact (Except.ok.injEq _ _).mp hpd.symm
                      rw [htc0, htd0]
                      exact List.mem_cons_self _ _
                    · exact List.mem_cons_of_mem _ (ih hrec hm)

theorem parseLeadRows_mem {es : List LeadEntry} {rows : List LeadRow}
    (h : parseLeadRows es = .ok rows) {e : LeadEntry} (he : e ∈ es)
    {d : ℤ} (hd : parseDate e.timestamp = some d) :
    (⟨e.timestamp, d, e.service, e.commit_sha, e.commit_ts, e.deploy_ts,
      e.lead_time_seconds, e.lead_time_minutes, e.lead_time_hours⟩ :
        LeadRow) ∈ rows := by
  induction es generalizing rows with
  | nil => exact absurd he (List.not_mem_nil e)
  | cons e0 rest ih =>
    rw [List.mem_cons] at he
    cases hp0 : parseDate e0.timestamp with
    | none => simp [parseLeadRows, hp0] at h
    | some d0 =>
      cases hrec : parseLeadRows rest with
      | error err => simp [parseLeadRows, hp0, hrec] at h
      | ok rs =>
        have hrows : rows = (⟨e0.timestamp, d0, e0.service, e0.commit_sha,
            e0.commit_ts, e0.deploy_ts, e0.lead_time_seconds,
            e0.lead_time_minutes, e0.lead_time_hours⟩ : LeadRow) :: rs := by
          simp [parseLeadRows, hp0, hrec] at h
          exact h.symm
        subst hrows
        rcases he with rfl | he
        · rw [hp0] at hd
          cases hd
          exact List.mem_cons_self _ _
        · exact List.mem_cons_of_mem _ (ih hrec he)

theorem bucketVals_mem {rows : List LeadRow} {r : LeadRow} (h : r ∈ rows) :
    r.lead_time_hours ∈ bucketVals rows r.date r.service := by
  unfold bucketVals
  exact List.mem_filterMap.mpr ⟨r, h, by simp⟩

theorem leadDailyOf_mem {rows : List LeadRow} {r : LeadRow} (h : r ∈ rows) :
    (⟨r.date, r.service, listMean (bucketVals rows r.date r.service),
      listMedian (bucketVals rows r.date r.service),
      listMin (bucketVals rows r.date r.service),
      listMax (bucketVals rows r.date r.service)⟩ : LeadDailyRow) ∈
      leadDailyOf rows := by
  have hkey : (r.date, r.service) ∈ leadKeys rows := by
    unfold leadKeys
    rw [List.mem_dedup]
    exact List.mem_map.mpr ⟨r, h, rfl⟩
  unfold leadDailyOf
  exact List.mem_map.mpr ⟨(r.date, r.service), hkey, rfl⟩

/-- C7: a lead-time event whose deploy timestamp precedes its commit
timestamp yields a canonical row with strictly negative
`lead_time_hours` — neither dropped nor clamped — whose value belongs,
unfiltered, to its (day, service) bucket; that bucket has a daily
aggregate row whose mean, median, min and max are computed over
exactly that unfiltered value list, so its min and max bound the
negative value. -/
theorem claim7_negative_lead {ms : List MetricRecord}
    {daily : List LeadDailyRow} {raw : List LeadRow}
    (hok : calculate_lead_time ms = .ok (.tables daily raw))
    {m : MetricRecord} (hm : m ∈ ms)
    {p : LeadPayload} (hp : m.lead_time_for_changes = some p)
    {cs : String} (hcs : p.commit_timestamp = some cs)
    {tc : ℤ} (htc : parseDT cs = some tc)
    {ds : String} (hds : p.deploy_timestamp = some ds)
    {td : ℤ} (htd : parseDT ds = some td)
    (hneg : td < tc)
    {ts : String} (hts : m.timestamp = some ts)
    {sv : String} (hsv : m.service = some sv)
    {dd : ℤ} (hdd : parseDate ts = some dd) :
    ∃ r ∈ raw, r.date = dd ∧ r.service = sv ∧
      r.lead_time_hours = mkRat (td - tc) 3600 ∧
      r.lead_time_hours < 0 ∧
      r.lead_time_hours ∈ bucketVals raw dd sv ∧
      ∃ arow ∈ daily, arow.date = dd ∧ arow.service = sv ∧
        arow.avg_lead_time_hours = listMean (bucketVals raw dd sv) ∧
        arow.median_lead_time_hours = listMedian (bucketVals raw dd sv) ∧
        arow.min_lead_time_hours = listMin (bucketVals raw dd sv) ∧
        arow.max_lead_time_hours = listMax (bucketVals raw dd sv) ∧
        arow.min_lead_time_hours ≤ r.lead_time_hours ∧
        r.lead_time_hours ≤ arow.max_lead_time_hours := by
  obtain ⟨hdaily, es, hes, hparse⟩ := calcLead_inv hok
  subst hdaily
  have hent := extractLeadTimes_mem hes hm hp hcs htc hds htd hts hsv
  have hrow := parseLeadRows_mem hparse hent (d := dd) (by simpa using hdd)
  set r : LeadRow := ⟨ts, dd, sv, p.commit_sha.getD "", tc, td,
    ((td - tc : ℤ) : ℚ), mkRat (td - tc) 60, mkRat (td - tc) 3600⟩ with hrdef
  refine ⟨r, hrow, rfl, rfl, rfl, ?_, ?_⟩
  · show mkRat (td - tc) 3600 < 0
    rw [Rat.mkRat_eq_div]
    apply div_neg_of_neg_of_pos
    · exact_mod_cast sub_neg.mpr hneg
    · norm_num
  · have hb := bucketVals_mem hrow
    have ha := leadDailyOf_mem hrow
    exact ⟨hb, _, ha, rfl, rfl, rfl, rfl, rfl, rfl,
      listMin_le hb, le_listMax hb⟩

/-- Witness for C7: the concrete event with deploy one day before
commit produces the `-24`-hour row and a daily aggregate row bounding
it. -/
theorem claim7_witness :
    ∃ r ∈ negLeadRaw, r.date = daysFromCivil 2024 1 3 ∧ r.service = "A" ∧
      r.lead_time_hours = mkRat (1704067200 - 1704153600) 3600 ∧
      r.lead_time_hours < 0 ∧
      r.lead_time_hours ∈ bucketVals negLeadRaw (daysFromCivil 2024 1 3) "A" ∧
      ∃ arow ∈ leadDailyOf negLeadRaw, arow.date = daysFromCivil 2024 1 3 ∧
        arow.service = "A" ∧
        arow.avg_lead_time_hours =
          listMean (bucketVals negLeadRaw (daysFromCivil 2024 1 3) "A") ∧
        arow.median_lead_time_hours =
          listMedian (bucketVals negLeadRaw (daysFromCivil 2024 1 3) "A") ∧
        arow.min_lead_time_hours =
          listMin (bucketVals negLeadRaw (daysFromCivil 2024 1 3) "A") ∧
        arow.max_lead_time_hours =
          listMax (bucketVals negLeadRaw (daysFromCivil 2024 1 3) "A") ∧
        arow.min_lead_time_hours ≤ r.lead_time_hours ∧
        r.lead_time_hours ≤ arow.max_lead_time_hours :=
  @claim7_negative_lead leadOnlyMetrics (leadDailyOf negLeadRaw) negLeadRaw
    rfl negLeadRec (List.mem_cons_self _ _)
    ⟨some "2024-01-02T00:00:00Z", some "2024-01-01T00:00:00Z", none⟩ rfl
    "2024-01-02T00:00:00Z" rfl 1704153600 rfl
    "2024-01-01T00:00:00Z" rfl 1704067200 rfl (by decide)
    "2024-01-03T05:00:00Z" rfl "A" rfl (daysFromCivil 2024 1 3) rfl

/-! ### Weekly buckets versus ISO weeks (C8) -/

theorem toPeriodW_monday (n : ℤ) :
    dayOfWeek (toPeriodW n) = 0 ∧ toPeriodW n ≤ n ∧ n < toPeriodW n + 7 := by
  unfold dayOfWeek toPeriodW
  omega

theorem specIsoWeek_eq_iff (n₁ n₂ : ℤ) :
    toPeriodW n₁ = toPeriodW n₂ ↔ specIsoWeek n₁ = specIsoWeek n₂ := by
  constructor
  · intro h
    unfold specIsoWeek
    rw [h]
  · intro h
    unfold specIsoWeek at h
    have ha₁ : (toPeriodW n₁ + 3) % 7 = 0 := toPeriodW_aligned n₁
    have ha₂ : (toPeriodW n₂ + 3) % 7 = 0 := toPeriodW_aligned n₂
    rw [Prod.mk.injEq] at h
    obtain ⟨hy, hw⟩ := h
    have hj := congrArg (fun y : ℤ => daysFromCivil y 1 1) hy
    simp only at hj
    omega

/-- C8: two deployment rows (and likewise two change-outcome rows) for
the same service fall into the same weekly grouping key exactly when
their civil dates lie in the same ISO week (the Monday-start week
whose identity is the ISO (year, week number) pair computed from the
Thursday of the week); the rendered string label of the bucket is a
function of the bucket alone; and each weekly bucket starts on a
Monday and spans the seven days from its start. -/
theorem claim8_week_bucket (r₁ r₂ : DeployRow) (hs : r₁.service = r₂.service)
    (c₁ c₂ : CfrRow) (hcs : c₁.service = c₂.service) :
    (weeklyKeyOf r₁ = weeklyKeyOf r₂ ↔
      specIsoWeek r₁.date = specIsoWeek r₂.date) ∧
    (weeklyKeyOf r₁ = weeklyKeyOf r₂ →
      weekLabel (toPeriodW r₁.date) = weekLabel (toPeriodW r₂.date)) ∧
    (cfrWeeklyKeyOf c₁ = cfrWeeklyKeyOf c₂ ↔
      specIsoWeek c₁.date = specIsoWeek c₂.date) ∧
    (dayOfWeek (toPeriodW r₁.date) = 0 ∧ toPeriodW r₁.date ≤ r₁.date ∧
      r₁.date < toPeriodW r₁.date + 7) := by
  have hkey : weeklyKeyOf r₁ = weeklyKeyOf r₂ ↔
      toPeriodW r₁.date = toPeriodW r₂.date := by
    unfold weeklyKeyOf
    rw [Prod.mk.injEq]
    exact ⟨fun h => h.1, fun h => ⟨h, hs⟩⟩
  have hckey : cfrWeeklyKeyOf c₁ = cfrWeeklyKeyOf c₂ ↔
      toPeriodW c₁.date = toPeriodW c₂.date := by
    unfold cfrWeeklyKeyOf
    rw [Prod.mk.injEq]
    exact ⟨fun h => h.1, fun h => ⟨h, hcs⟩⟩
  refine ⟨?_, ?_, ?_, toPeriodW_monday r₁.date⟩
  · rw [hkey]
    exact specIsoWeek_eq_iff r₁.date r₂.date
  · intro h
    rw [hkey.mp h]
  · rw [hckey]
    exact specIsoWeek_eq_iff c₁.date c₂.date

/-- Witness for C8 at concrete rows: Sunday 2023-12-31 and Monday
2024-01-01 share a service but lie in different ISO weeks, so their
weekly keys differ; the Monday-start facts hold for the Sunday row. -/
theorem claim8_witness :
    weeklyKeyOf sundayRow ≠ weeklyKeyOf mondayRow ∧
    dayOfWeek (toPeriodW sundayRow.date) = 0 ∧
    toPeriodW sundayRow.date ≤ sundayRow.date ∧
    sundayRow.date < toPeriodW sundayRow.date + 7 := by
  have h := claim8_week_bucket sundayRow mondayRow rfl
    ⟨"2024-01-01T11:00:00Z", daysFromCivil 2024 1 1, "A", "success", "", ""⟩
    ⟨"2024-01-01T12:00:00Z", daysFromCivil 2024 1 1, "A", "failure", "", ""⟩
    rfl
  refine ⟨fun hk => ?_, h.2.2.2⟩
  have := h.1.mp hk
  revert this
  decide

/-! ### Independence of the three extractors (C9) -/

theorem extractDeployments_clear (ms : List MetricRecord) :
    extractDeployments (ms.map clearNonDeploy) = extractDeployments ms := by
  induction ms with
  | nil => rfl
  | cons m0 rest ih =>
    simp only [List.map_cons, extractDeployments, clearNonDeploy, ih]

theorem extractLeadTimes_clear (ms : List MetricRecord) :
    extractLeadTimes (ms.map clearNonLead) = extractLeadTimes ms := by
  induction ms with
  | nil => rfl
  | cons m0 rest ih =>
    simp only [List.map_cons, extractLeadTimes, clearNonLead, ih]

theorem extractChanges_clear (ms : List MetricRecord) :
    extractChanges (ms.map clearNonCfr) = extractChanges ms := by
  induction ms with
  | nil => rfl
  | cons m0 rest ih =>
    simp only [List.map_cons, extractChanges, clearNonCfr, ih]

theorem extractDeployments_mem {ms : List MetricRecord}
    {es : List DeployEntry} (h : extractDeployments ms = .ok es)
    {m : MetricRecord} (hm : m ∈ ms)
    {p : DeployPayload} (hp : m.deployment_frequency = some p)
    {ts : String} (hts : m.timestamp = some ts)
    {sv : String} (hsv : m.service = some sv)
    {did : String} (hdid : p.deployment_id = some did) :
    deployEntryOf ts sv p did ∈ es := by
  induction ms generalizing es with
  | nil => exact absurd hm (List.not_mem_nil m)
  | cons m0 rest ih =>
    rw [List.mem_cons] at hm
    cases hp0 : m0.deployment_frequency with
    | none =>
      simp only [extractDeployments, hp0] at h
      rcases hm with rfl | hm
      · rw [hp0] at hp
        exact absurd hp (by simp)
      · exact ih h hm
    | some p0 =>
      cases hts0 : m0.timestamp with
      | none => simp [extractDeployments, hp0, hts0] at h
      | some ts0 =>
        cases hsv0 : m0.service with
        | none => simp [extractDeployments, hp0, hts0, hsv0] at h
        | some sv0 =>
          cases hid0 : p0.deployment_id with
          | none => simp [extractDeployments, hp0, hts0, hsv0, hid0] at h
          | some did0 =>
            cases hrec : extractDeployments rest with
            | error e =>
              simp [extractDeployments, hp0, hts0, hsv0, hid0, hrec] at h
            | ok rest' =>
              have hes : es = deployEntryOf ts0 sv0 p0 did0 :: rest' := by
                simp [extractDeployments, hp0, hts0, hsv0, hid0, hrec] at h
                exact h.symm
              subst hes
              rcases hm with rfl | hm
              · rw [hp0] at hp
                cases hp
                rw [hts0] at hts
                cases hts
                rw [hsv0] at hsv
                cases hsv
                rw [hid0] at hdid
                cases hdid
                exact List.mem_cons_self _ _
              · exact List.mem_cons_of_mem _ (ih hrec hm)

/-- C9: the three extractors are independent membership filters.  Each
one reads only its own payload key (erasing the other payloads from
every record leaves its output unchanged), and a record that carries
several payload keys with their required fields contributes one
canonical row to every matching table. -/
theorem claim9_multi_payload (ms : List MetricRecord) :
    (extractDeployments (ms.map clearNonDeploy) = extractDeployments ms ∧
      extractLeadTimes (ms.map clearNonLead) = extractLeadTimes ms ∧
      extractChanges (ms.map clearNonCfr) = extractChanges ms) ∧
    (∀ m ∈ ms, ∀ pD pL did cs tc ds td ts sv,
      m.deployment_frequency = some pD → pD.deployment_id = some did →
      m.lead_time_for_changes = some pL →
      pL.commit_timestamp = some cs → parseDT cs = some tc →
      pL.deploy_timestamp = some ds → parseDT ds = some td →
      m.timestamp = some ts → m.service = some sv →
      (∀ es, extractDeployments ms = .ok es →
        deployEntryOf ts sv pD did ∈ es) ∧
      (∀ es, extractLeadTimes ms = .ok es →
        leadEntryOf ts sv pL tc td ∈ es)) := by
  refine ⟨⟨extractDeployments_clear ms, extractLeadTimes_clear ms,
    extractChanges_clear ms⟩, ?_⟩
  intro m hm pD pL did cs tc ds td ts sv hpD hdid hpL hcs htc hds htd hts hsv
  constructor
  · intro es hes
    exact extractDeployments_mem hes hm hpD hts hsv hdid
  · intro es hes
    exact extractLeadTimes_mem hes hm hpL hcs htc hds htd hts hsv

/-- Witness for C9: the record carrying both a deployment and a
lead-time payload appears in both extracted tables. -/
theorem claim9_witness :
    deployEntryOf "2024-01-04T08:00:00Z" "C" ⟨some "d9", none, none⟩ "d9" ∈
      [deployEntryOf "2024-01-04T08:00:00Z" "C" ⟨some "d9", none, none⟩
        "d9"] ∧
    leadEntryOf "2024-01-04T08:00:00Z" "C"
        ⟨some "2024-01-04T06:00:00Z", some "2024-01-04T07:00:00Z", none⟩
        1704348000 1704351600 ∈
      [leadEntryOf "2024-01-04T08:00:00Z" "C"
        ⟨some "2024-01-04T06:00:00Z", some "2024-01-04T07:00:00Z", none⟩
        1704348000 1704351600] := by
  have h := (claim9_multi_payload dualPayloadMetrics).2 dualPayloadRec
    (List.mem_cons_self _ _) ⟨some "d9", none, none⟩
    ⟨some "2024-01-04T06:00:00Z", some "2024-01-04T07:00:00Z", none⟩
    "d9" "2024-01-04T06:00:00Z" 1704348000 "2024-01-04T07:00:00Z" 1704351600
    "2024-01-04T08:00:00Z" "C" rfl rfl rfl rfl (by decide) rfl (by decide)
    rfl rfl
  exact ⟨h.1 _ rfl, h.2 _ rfl⟩

/-! ### Run summary (C10) -/

theorem char_eq_of_toNat_eq {x y : Char} (h : x.toNat = y.toNat) : x = y := by
  apply Char.ext
  apply UInt32.ext
  simpa [Char.toNat] using h

theorem strLtChars_trans : ∀ (a b c : List Char),
    strLtChars a b = true → strLtChars b c = true →
    strLtChars a c = true := by
  intro a
  induction a with
  | nil =>
    intro b c hab hbc
    cases b with
    | nil => simp [strLtChars] at hab
    | cons y ys =>
      cases c with
      | nil => simp [strLtChars] at hbc
      | cons z zs => simp [strLtChars]
  | cons x xs ih =>
    intro b c hab hbc
    cases b with
    | nil => simp [strLtChars] at hab
    | cons y ys =>
      cases c with
      | nil => simp [strLtChars] at hbc
      | cons z zs =>
        simp only [strLtChars] at hab hbc ⊢
        by_cases h1 : x.toNat < y.toNat
        · by_cases h2 : y.toNat < z.toNat
          · rw [if_pos (by omega)]
          · rw [if_neg h2] at hbc
            by_cases h3 : z.toNat < y.toNat
            · rw [if_pos h3] at hbc
              exact absurd hbc (by simp)
            · rw [if_pos (by omega)]
        · rw [if_neg h1] at hab
          by_cases h1' : y.toNat < x.toNat
          · rw [if_pos h1'] at hab
            exact absurd hab (by simp)
          · rw [if_neg h1'] at hab
            by_cases h2 : y.toNat < z.toNat
            · rw [if_pos (by omega)]
            · rw [if_neg h2] at hbc
              by_cases h3 : z.toNat < y.toNat
              · rw [if_pos h3] at hbc
                exact absurd hbc (by simp)
              · rw [if_neg h3] at hbc
                rw [if_neg (by omega), if_neg (by omega)]
                exact ih ys zs hab hbc

theorem strLtChars_total : ∀ (a b : List Char), strLtChars a b = false →
    strLtChars b a = true ∨ a = b := by
  intro a
  induction a with
  | nil =>
    intro b h
    cases b with
    | nil => exact Or.inr rfl
    | cons y ys => simp [strLtChars] at h
  | cons x xs ih =>
    intro b h
    cases b with
    | nil =>
      left
      simp [strLtChars]
    | cons y ys =>
      simp only [strLtChars] at h ⊢
      by_cases h1 : x.toNat < y.toNat
      · rw [if_pos h1] at h
        exact absurd h (by simp)
      · rw [if_neg h1] at h
        by_cases h2 : y.toNat < x.toNat
        · left
          rw [if_pos h2]
        · rw [if_neg h2] at h
          have hxy : x = y := char_eq_of_toNat_eq (by omega)
          rcases ih ys h with h3 | h3
          · left
            rw [if_neg (by omega), if_neg (by omega)]
            exact h3
          · right
            rw [hxy, h3]

theorem pyLt_trans {a b c : String} (h1 : pyLt a b = true)
    (h2 : pyLt b c = true) : pyLt a c = true :=
  strLtChars_trans a.data b.data c.data h1 h2

theorem pyLt_total {a b : String} (h : pyLt a b = false) :
    pyLt b a = true ∨ a = b := by
  rcases strLtChars_total a.data b.data h with h2 | h2
  · exact Or.inl h2
  · right
    cases a
    cases b
    simp only at h2
    rw [h2]

theorem foldl_minStr_mem (ts : List String) (t : String) :
    ts.foldl minStr t ∈ t :: ts := by
  induction ts generalizing t with
  | nil => exact List.mem_singleton.mpr rfl
  | cons x xs ih =>
    rw [List.foldl_cons]
    have h := ih (minStr t x)
    rw [List.mem_cons] at h
    rcases h with h | h
    · rw [h]
      unfold minStr
      split_ifs
      · exact List.mem_cons_of_mem _ (List.mem_cons_self _ _)
      · exact List.mem_cons_self _ _
    · exact List.mem_cons_of_mem _ (List.mem_cons_of_mem _ h)

theorem foldl_maxStr_mem (ts : List String) (t : String) :
    ts.foldl maxStr t ∈ t :: ts := by
  induction ts generalizing t with
  | nil => exact List.mem_singleton.mpr rfl
  | cons x xs ih =>
    rw [List.foldl_cons]
    have h := ih (maxStr t x)
    rw [List.mem_cons] at h
    rcases h with h | h
    · rw [h]
      unfold maxStr
      split_ifs
      · exact List.mem_cons_of_mem _ (List.mem_cons_self _ _)
      · exact List.mem_cons_self _ _
    · exact List.mem_cons_of_mem _ (List.mem_cons_of_mem _ h)

theorem strLtChars_irrefl : ∀ a : List Char, strLtChars a a = false := by
  intro a
  induction a with
  | nil => rfl
  | cons x xs ih =>
    simp only [strLtChars]
    rw [if_neg (by omega), if_neg (by omega)]
    exact ih

theorem pyLt_irrefl (a : String) : pyLt a a = false :=
  strLtChars_irrefl a.data

theorem pyLt_notLt_trans {a b c : String} (h1 : pyLt a b = false)
    (h2 : pyLt b c = false) : pyLt a c = false := by
  by_contra hac
  rw [Bool.not_eq_false] at hac
  rcases pyLt_total h1 with h3 | heq
  · have := pyLt_trans h3 hac
    rw [this] at h2
    exact absurd h2 (by simp)
  · subst heq
    rw [hac] at h2
    exact absurd h2 (by simp)

theorem minStr_step (a b : String) :
    pyLt a (minStr a b) = false ∧ pyLt b (minStr a b) = false := by
  unfold minStr
  by_cases hc : pyLt b a = true
  · rw [if_pos hc]
    constructor
    · by_contra h
      rw [Bool.not_eq_false] at h
      have := pyLt_trans h hc
      rw [pyLt_irrefl] at this
      exact absurd this (by simp)
    · exact pyLt_irrefl b
  · rw [if_neg hc]
    exact ⟨pyLt_irrefl a, by simpa using hc⟩

theorem maxStr_step (a b : String) :
    pyLt (maxStr a b) a = false ∧ pyLt (maxStr a b) b = false := by
  unfold maxStr
  by_cases hc : pyLt a b = true
  · rw [if_pos hc]
    constructor
    · by_contra h
      rw [Bool.not_eq_false] at h
      have := pyLt_trans hc h
      rw [pyLt_irrefl] at this
      exact absurd this (by simp)
    · exact pyLt_irrefl b
  · rw [if_neg hc]
    exact ⟨pyLt_irrefl a, by simpa using hc⟩

theorem foldl_minStr_min (ts : List String) (t : String) :
    ∀ x ∈ t :: ts, pyLt x (ts.foldl minStr t) = false := by
  induction ts generalizing t with
  | nil =>
    intro x hx
    have hxt : x = t := by simpa using hx
    subst hxt
    exact pyLt_irrefl x
  | cons y ys ih =>
    intro x hx
    rw [List.foldl_cons]
    have strong := ih (minStr t y)
    have hhead := strong _ (List.mem_cons_self _ _)
    have hstep := minStr_step t y
    rw [List.mem_cons] at hx
    rcases hx with rfl | hx
    · exact pyLt_notLt_trans hstep.1 hhead
    · rw [List.mem_cons] at hx
      rcases hx with rfl | hx
      · exact pyLt_notLt_trans hstep.2 hhead
      · exact strong _ (List.mem_cons_of_mem _ hx)

theorem foldl_maxStr_max (ts : List String) (t : String) :
    ∀ x ∈ t :: ts, pyLt (ts.foldl maxStr t) x = false := by
  induction ts generalizing t with
  | nil =>
    intro x hx
    have hxt : x = t := by simpa using hx
    subst hxt
    exact pyLt_irrefl x
  | cons y ys ih =>
    intro x hx
    rw [List.foldl_cons]
    have strong := ih (maxStr t y)
    have hhead := strong _ (List.mem_cons_self _ _)
    have hstep := maxStr_step t y
    rw [List.mem_cons] at hx
    rcases hx with rfl | hx
    · exact pyLt_notLt_trans hhead hstep.1
    · rw [List.mem_cons] at hx
      rcases hx with rfl | hx
      · exact pyLt_notLt_trans hhead hstep.2
      · exact strong _ (List.mem_cons_of_mem _ hx)

theorem rawTimestamps_ok_eq {ms : List MetricRecord} {tss : List String}
    (h : rawTimestamps ms = .ok tss) :
    tss = ms.filterMap (fun m => m.timestamp) := by
  induction ms generalizing tss with
  | nil =>
    simp only [rawTimestamps, Except.ok.injEq] at h
    rw [← h]
    rfl
  | cons m0 rest ih =>
    cases hts0 : m0.timestamp with
    | none => simp [rawTimestamps, hts0] at h
    | some t0 =>
      cases hrec : rawTimestamps rest with
      | error e => simp [rawTimestamps, hts0, hrec] at h
      | ok ts0 =>
        have : tss = t0 :: ts0 := by
          simp [rawTimestamps, hts0, hrec] at h
          exact h.symm
        subst this
        rw [List.filterMap_cons, hts0, ih hrec]

theorem rawTimestamps_err_of_missing {ms : List MetricRecord}
    {m : MetricRecord} (hm : m ∈ ms) (h : m.timestamp = none) :
    rawTimestamps ms = .error "KeyError: timestamp" := by
  induction ms with
  | nil => exact absurd hm (List.not_mem_nil m)
  | cons m0 rest ih =>
    rw [List.mem_cons] at hm
    rcases hm with rfl | hm
    · simp [rawTimestamps, h]
    · cases hts0 : m0.timestamp with
      | none => simp [rawTimestamps, hts0]
      | some t0 => simp [rawTimestamps, hts0, ih hm]

theorem summaryOf_ok_inv {ms : List MetricRecord} {s : Summary}
    (h : summaryOf ms = .ok s) :
    ∃ t ts, rawTimestamps ms = .ok (t :: ts) ∧
      s = ⟨ms.length, ts.foldl minStr t, ts.foldl maxStr t⟩ := by
  unfold summaryOf at h
  split at h
  · exact absurd h (by simp)
  · exact absurd h (by simp)
  · rename_i t ts hraw
    simp only [Except.ok.injEq] at h
    exact ⟨t, ts, hraw, h.symm⟩

theorem generate_ok_summary {ms : List MetricRecord}
    {r : Option RunOutput} (hne : ms ≠ [])
    (h : generate_powerbi_export ms = .ok r) :
    ∃ s, summaryOf ms = .ok s := by
  unfold generate_powerbi_export at h
  rw [if_neg (by simpa using hne)] at h
  split at h
  · exact absurd h (by simp)
  · split at h
    · exact absurd h (by simp)
    · split at h
      · exact absurd h (by simp)
      · split at h
        · exact absurd h (by simp)
        · split at h
          · exact absurd h (by simp)
          · split at h
            · exact absurd h (by simp)
            · split at h
              · exact absurd h (by simp)
              · rename_i s hs
                exact ⟨s, hs⟩

theorem extract_skip_inert {m : MetricRecord} (hi : inert m)
    (ms' : List MetricRecord) :
    extractDeployments (m :: ms') = extractDeployments ms' ∧
    extractLeadTimes (m :: ms') = extractLeadTimes ms' ∧
    extractChanges (m :: ms') = extractChanges ms' := by
  obtain ⟨h1, h2, h3⟩ := hi
  refine ⟨?_, ?_, ?_⟩
  · simp only [extractDeployments, h1]
  · simp only [extractLeadTimes, h2]
  · simp only [extractChanges, h3]

/-- C10: the run summary takes the raw `timestamp` strings of every
successfully loaded record (in load order) and computes `date_range`
as their minimum and maximum under plain lexicographic string
comparison; consequently every loaded record must carry the key: a
record without `timestamp` makes the summary computation raise its
`KeyError` and the run can never complete, even though such a record,
when inert, is invisible to all three metric extractors (so the
aggregation itself is indifferent to it and the failure is at the
summary step). -/
theorem claim10_summary_range (ms : List MetricRecord) :
    (∀ s, summaryOf ms = .ok s →
      s.total_metrics = ms.length ∧
      ∃ tss, rawTimestamps ms = .ok tss ∧
        tss = ms.filterMap (fun m => m.timestamp) ∧
        s.date_range_start ∈ tss ∧ s.date_range_end ∈ tss ∧
        (∀ x ∈ tss, pyLt x s.date_range_start = false) ∧
        (∀ x ∈ tss, pyLt s.date_range_end x = false)) ∧
    (∀ m ∈ ms, m.timestamp = none →
      summaryOf ms = .error "KeyError: timestamp" ∧
      ∀ r, generate_powerbi_export ms ≠ .ok r) ∧
    (∀ m, inert m →
      extractDeployments (m :: ms) = extractDeployments ms ∧
      extractLeadTimes (m :: ms) = extractLeadTimes ms ∧
      extractChanges (m :: ms) = extractChanges ms) := by
  refine ⟨?_, ?_, fun m hi => extract_skip_inert hi ms⟩
  · intro s hs
    obtain ⟨t, ts, hraw, hsdef⟩ := summaryOf_ok_inv hs
    subst hsdef
    refine ⟨rfl, t :: ts, hraw, rawTimestamps_ok_eq hraw, ?_, ?_, ?_, ?_⟩
    · exact foldl_minStr_mem ts t
    · exact foldl_maxStr_mem ts t
    · exact foldl_minStr_min ts t
    · exact foldl_maxStr_max ts t
  · intro m hm hts
    have herr := rawTimestamps_err_of_missing hm hts
    have hserr : summaryOf ms = .error "KeyError: timestamp" := by
      unfold summaryOf
      rw [herr]
    refine ⟨hserr, ?_⟩
    intro r hok
    have hne : ms ≠ [] := by
      intro he
      rw [he] at hm
      exact List.not_mem_nil m hm
    obtain ⟨s, hs⟩ := generate_ok_summary hne hok
    rw [hserr] at hs
    exact absurd hs (by simp)

/-- Witness for C10 at a concrete batch: one full deployment record
plus one inert record without a timestamp.  The summary raises the
`KeyError` and the export can never return successfully, while the
extractors ignore the inert record. -/
theorem claim10_witness :
    summaryOf noTsMetrics = .error "KeyError: timestamp" ∧
    generate_powerbi_export noTsMetrics ≠ .ok none ∧
    extractDeployments (inertNoTsRec :: noTsMetrics) =
      extractDeployments noTsMetrics := by
  have h := claim10_summary_range noTsMetrics
  have h2 := h.2.1 inertNoTsRec (by decide) rfl
  exact ⟨h2.1, h2.2 none, (h.2.2 inertNoTsRec ⟨rfl, rfl, rfl⟩).1⟩

end Dora
